import Mathlib

/-!
# Typed AST node model and declarator data of the C-to-WASM front end

A shallow embedding of `src/ast.hpp` and `src/declarations.hpp`.

* A C++ pointer `T*` is an `Option T`: `none` is the null pointer, `some x`
  points at the object `x`.  A node owns its children, so an object is
  embedded as the value of its fields.
* `assert(c)` aborts the program when `c` is false: a constructor or method
  that asserts returns an `Option`, and `none` is the abort.
* `std::ostream&` is threaded as the `String` written so far.  Dereferencing
  a null pointer while writing has no defined result: the writers return
  `none` there.
* The dynamic class of an object is the constructor of its value; virtual
  dispatch is pattern matching.
-/

set_option linter.dupNamespace false
set_option linter.unusedVariables false

/-- A C++ pointer: `none` is `NULL`. -/
abbrev Ptr (α : Type) : Type := Option α

/-- The `assert` of `<cassert>`: `none` aborts. -/
def assert (c : Bool) : Option Unit := if c then some () else none

namespace types

/-- Modelled from the spec: the kind of a primitive type (`types.hpp` is not
among the sources); "kind ∈ {VOID, INTEGER, REAL, CHAR}". -/
inductive PrimKind where
  | VOID
  | INTEGER
  | REAL
  | CHAR
  deriving DecidableEq, Repr

/-- Modelled from the spec: `types::Type` of `types.hpp`: a `PrimType` of some
kind, or a `ContainerType` of kind POINTER or ARRAY wrapping an inner type, the
ARRAY carrying its resolved element count.  Types are immutable values. -/
inductive Type_ where
  | PrimType (kind : PrimKind)
  | POINTER (inner : Type_)
  | ARRAY (count : Nat) (inner : Type_)
  deriving DecidableEq, Repr

/-- Modelled from the spec: `types::ContainerType::Builder` of `types.hpp`,
"a deferred, composable type transformer": a pointer builder, or an array
builder with its pre-resolved count. -/
inductive Builder where
  | pointer
  | array (count : Nat)
  deriving DecidableEq, Repr

/-- Modelled from the spec: what a builder does to the inner type it is given:
"a pointer-builder wraps the eventual inner type in POINTER; an array-builder
wraps it in ARRAY with a pre-resolved count". -/
def Builder.build : Builder → Type_ → Type_
  | .pointer, inner => .POINTER inner
  | .array count, inner => .ARRAY count inner

/-- Modelled from the spec: what `types::TypeQualOrTypeSpecPointer` of
`types.hpp` points at, "type specifier + qualifiers": a type qualifier, or a
type specifier, which names the primitive kind of the base type. -/
inductive TypeQualOrTypeSpec where
  | TypeQual (name : String)
  | TypeSpec (kind : PrimKind)
  deriving DecidableEq, Repr

end types

namespace decl

/-- The enum `StorageClassSpec::Kind`. -/
inductive StorageClassSpec.Kind where
  | TYPEDEF
  | EXTERN
  | STATIC
  | AUTO
  | REGISTER
  deriving DecidableEq, Repr

end decl

namespace sbtb

/-- Modelled from the spec: the binding record of the symbol table
(`symtable.hpp` is not among the sources): "(name, type, storage)". -/
structure Binding where
  name : String
  type : types.Type_
  storage : Option decl.StorageClassSpec.Kind
  deriving DecidableEq, Repr

/-- Modelled from the spec: `sbtb::NameRef`, the handle a `Variable` holds;
`get` is the binding record it resolves to. -/
structure NameRef where
  get : Binding
  deriving DecidableEq, Repr

/-- Modelled from the spec: the lexical scope currently open, as the bindings
inserted into it, oldest first. -/
abbrev Scope : Type := List Binding

/-- Modelled from the spec: `insert(name, type, storage) -> NameRef |
DuplicateNameError` of the symbol table: a name already bound in the scope is
refused, "not a silent overwrite" (`none`); otherwise the binding is added and
a reference to it returned. -/
def insert (scope : Scope) (name : String) (type : types.Type_)
    (storage : Option decl.StorageClassSpec.Kind) : Option (Scope × NameRef) :=
  if scope.any (fun b => b.name == name) then none
  else some (scope ++ [⟨name, type, storage⟩], ⟨⟨name, type, storage⟩⟩)

end sbtb

/-- Modelled from the spec: `ScopeId` of `symtable.hpp`, the stable id of a
lexical scope. -/
abbrev ScopeId : Type := Nat

/-- The stream inserters `operator<<` that `ast.hpp` uses and that are neither
defined in it nor fixed by the language for the model's carrier: for a
`types::Type` (`types.hpp`), for a `double`, and for a `ScopeId`
(`symtable.hpp`).  They are parameters of the writers. -/
structure Inserters where
  type : types.Type_ → String
  real : Float → String
  scope : ScopeId → String

/-- The notation of the specification for a type, `INTEGER`,
`POINTER(INTEGER)`, `ARRAY(10, INTEGER)`: one possible inserter for types. -/
def types.Type_.show : types.Type_ → String
  | .PrimType .VOID => "VOID"
  | .PrimType .INTEGER => "INTEGER"
  | .PrimType .REAL => "REAL"
  | .PrimType .CHAR => "CHAR"
  | .POINTER inner => "POINTER(" ++ inner.show ++ ")"
  | .ARRAY count inner => "ARRAY(" ++ toString count ++ ", " ++ inner.show ++ ")"

/-- One choice of inserters, used where a dump is computed on an example. -/
def Inserters.sample : Inserters where
  type := types.Type_.show
  real := fun _ => "0.5"
  scope := fun id => toString id

namespace ast

open types

/-- The classes built on `UnOp` (all inherit its constructor), and `UnOp`
itself. -/
inductive UnOpClass where
  | UnOp
  | Not
  | BitNot
  | InvertSignal
  | PosfixPlusPlus
  | PosfixMinusMinus
  | PrefixPlusPlus
  | PrefixMinusMinus
  | AddressOf
  deriving DecidableEq, Repr

/-- The classes built on `BinOp` (all inherit its constructor), and `BinOp`
itself. -/
inductive BinOpClass where
  | BinOp
  | Plus
  | Minus
  | Times
  | Over
  | IndexAccess
  deriving DecidableEq, Repr

mutual
/-- An object whose static type is `Expr` (a `TypedNode`): every constructor
carries the slot `TypedNode::type` and the fields of its own class. -/
inductive Expr where
  | Expr (type : Option Type_)
  | Value (type : Option Type_)
  | IntegerValue (type : Option Type_) (value : Int)
  | FloatingValue (type : Option Type_) (value : Float)
  | CharValue (type : Option Type_) (value : Char)
  | StringValue (type : Option Type_) (value : Nat)
  | Variable (type : Option Type_) (ref : sbtb.NameRef)
  | UnOp (cls : UnOpClass) (type : Option Type_) (child : Option Expr)
  | BinOp (b : BinOp)
  | Call (type : Option Type_) (left : Option Expr) (right : Option Exprs)
/-- An object of class `BinOp` or of a class built on it:
`MultiChildrenBase<Expr>` with the slot `type` and the vector `children`. -/
inductive BinOp where
  | mk (cls : BinOpClass) (type : Option Type_) (children : List (Option Expr))
/-- An object of class `Exprs`: `MultiChildrenBase<Expr, Node>`. -/
inductive Exprs where
  | mk (children : List (Option Expr))
end

mutual
/-- An object whose static type is `Statement`. -/
inductive Statement where
  | Statement
  | IfStmt (expr : Option Expr) (stmt : Option Statement)
  | WhileStmt (expr : Option Expr) (stmt : Option Statement)
  | DoWhileStmt (expr : Option Expr) (stmt : Option Statement)
  | Block (b : Block)
  | ExpressionStmt (child : Option Expr)
/-- An object of class `Block`: `MultiChildrenBase<Statement>` with the
optional `scope_id`. -/
inductive Block where
  | mk (scope_id : Option ScopeId) (children : List (Option Statement))
end

/-- An object whose static type is `Declaration`. -/
inductive Declaration where
  | Declaration (name : String)
  | FunctionDefinition (name : String) (body : Option Block)

/-- An object of class `Program`: `MultiChildrenBase<Declaration, Node>`. -/
inductive Program where
  | mk (children : List (Option Declaration))

/-- Any object seen through a `Node*`. -/
inductive Node where
  | Node
  | TypedNode (type : Option Type_)
  | expr (e : Expr)
  | exprs (es : Exprs)
  | stmt (s : Statement)
  | decl (d : Declaration)
  | program (p : Program)

/-- The implicit conversion `Expr*` to `Node*`. -/
def Expr.up (p : Ptr ast.Expr) : Ptr Node := p.map Node.expr

/-- The implicit conversion `Exprs*` to `Node*`. -/
def Exprs.up (p : Ptr ast.Exprs) : Ptr Node := p.map Node.exprs

/-- The implicit conversion `Statement*` to `Node*`. -/
def Statement.up (p : Ptr ast.Statement) : Ptr Node := p.map Node.stmt

/-- The implicit conversion `Block*` to `Statement*`. -/
def Block.toStatement (p : Ptr ast.Block) : Ptr ast.Statement := p.map Statement.Block

/-- The implicit conversion `Block*` to `Node*`. -/
def Block.up (p : Ptr ast.Block) : Ptr Node := Statement.up (Block.toStatement p)

/-- The implicit conversion `Declaration*` to `Node*`. -/
def Declaration.up (p : Ptr ast.Declaration) : Ptr Node := p.map Node.decl

/-- The labels given with `LABEL(..)` to the classes built on `UnOp`; `UnOp`
has none of its own and inherits `Node`'s. -/
def UnOpClass.get_label : UnOpClass → String
  | .UnOp => "Node"
  | .Not => "!"
  | .BitNot => "~"
  | .InvertSignal => "-"
  | .PosfixPlusPlus => "++"
  | .PosfixMinusMinus => "--"
  | .PrefixPlusPlus => "p++"
  | .PrefixMinusMinus => "p--"
  | .AddressOf => "&x"

/-- The labels given with `LABEL(..)` to the classes built on `BinOp`; `BinOp`
has none of its own and inherits `Node`'s. -/
def BinOpClass.get_label : BinOpClass → String
  | .BinOp => "Node"
  | .Plus => "+"
  | .Minus => "-"
  | .Times => "*"
  | .Over => "/"
  | .IndexAccess => "v[x]"

/-- The virtual `get_label()`: the `LABEL(..)` of the dynamic class, or the one
it inherits. -/
def get_label : Node → String
  | .Node => "Node"
  | .TypedNode _ => "Node"
  | .expr (.Expr _) => "Node"
  | .expr (.Value _) => "Node"
  | .expr (.IntegerValue _ _) => "Integer"
  | .expr (.FloatingValue _ _) => "Real"
  | .expr (.CharValue _ _) => "Char"
  | .expr (.StringValue _ _) => "String"
  | .expr (.Variable _ _) => "Var"
  | .expr (.UnOp cls _ _) => cls.get_label
  | .expr (.BinOp (.mk cls _ _)) => cls.get_label
  | .expr (.Call _ _ _) => "\"f(x)\""
  | .exprs _ => ""
  | .stmt .Statement => "Statement"
  | .stmt (.IfStmt _ _) => "IfStmt"
  | .stmt (.WhileStmt _ _) => "WhileStmt"
  | .stmt (.DoWhileStmt _ _) => "DoWhileStmt"
  | .stmt (.Block _) => "Block"
  | .stmt (.ExpressionStmt _) => "ExpressionStmt"
  | .decl (.Declaration _) => "Declaration"
  | .decl (.FunctionDefinition _ _) => "FunctionDefinition"
  | .program _ => "Program"

/-- The virtual `is_typed()`: overridden by `TypedNode` only. -/
def is_typed : Node → Bool
  | .TypedNode _ => true
  | .expr _ => true
  | _ => false

/-- The virtual `get_children()`: `Node`'s empty vector, unless the class is
built on `SingleChildBase` (`{child}`), on `TwoChildrenBase` (`{left, right}`)
or on `MultiChildrenBase` (a copy of `children`), or overrides it itself
(`IfStmt`, `WhileStmt`, `DoWhileStmt`: `{expr, stmt}`; `FunctionDefinition`:
`{body}`). -/
def get_children : Node → List (Ptr Node)
  | .expr (.UnOp _ _ child) => [Expr.up child]
  | .expr (.BinOp (.mk _ _ children)) => children.map Expr.up
  | .expr (.Call _ left right) => [Expr.up left, Exprs.up right]
  | .exprs (.mk children) => children.map Expr.up
  | .stmt (.IfStmt expr stmt) => [Expr.up expr, Statement.up stmt]
  | .stmt (.WhileStmt expr stmt) => [Expr.up expr, Statement.up stmt]
  | .stmt (.DoWhileStmt expr stmt) => [Expr.up expr, Statement.up stmt]
  | .stmt (.Block (.mk _ children)) => children.map Statement.up
  | .stmt (.ExpressionStmt child) => [Expr.up child]
  | .decl (.FunctionDefinition _ body) => [Block.up body]
  | .program (.mk children) => children.map Declaration.up
  | _ => []

/-- The body of `TypedNode::write_data_repr`: it dereferences the type slot. -/
def TypedNode.write_data_repr (ins : Inserters) (type : Ptr Type_)
    (stream : String) : Option String :=
  match type with
  | none => none
  | some t => some (stream ++ " \"[" ++ ins.type t ++ "]\"")

/-- The body of `BaseValue<T, type_kind>::write_data_repr`, for a payload shown
as `shown` by its inserter: the data of `Expr` (which is `TypedNode`'s), a
blank, the value. -/
def BaseValue.write_data_repr (ins : Inserters) (type : Ptr Type_)
    (shown : String) (stream : String) : Option String :=
  match TypedNode.write_data_repr ins type stream with
  | none => none
  | some stream => some (stream ++ " " ++ shown)

/-- The method `Variable::get_name`. -/
def Variable.get_name (ref : sbtb.NameRef) : String := ref.get.name

/-- The body of `Variable::write_data_repr`: the quoted name, then the data of
`Expr`. -/
def Variable.write_data_repr (ins : Inserters) (type : Ptr Type_)
    (ref : sbtb.NameRef) (stream : String) : Option String :=
  TypedNode.write_data_repr ins type
    (stream ++ " \"" ++ Variable.get_name ref ++ "\"")

/-- The body of `Block::write_data_repr`: the scope id, when there is one. -/
def Block.write_data_repr (ins : Inserters) (scope_id : Option ScopeId)
    (stream : String) : Option String :=
  match scope_id with
  | some id => some (stream ++ " " ++ ins.scope id)
  | none => some stream

/-- The virtual `write_data_repr(stream)`: `Node`'s writes nothing; `TypedNode`,
`BaseValue`, `Variable` and `Block` override it.  A `long long` and a `size_t`
are inserted in decimal, a `char` as itself. -/
def write_data_repr (ins : Inserters) : Node → String → Option String
  | .TypedNode type, stream => TypedNode.write_data_repr ins type stream
  | .expr (.Expr type), stream => TypedNode.write_data_repr ins type stream
  | .expr (.Value type), stream => TypedNode.write_data_repr ins type stream
  | .expr (.IntegerValue type value), stream =>
      BaseValue.write_data_repr ins type (toString value) stream
  | .expr (.FloatingValue type value), stream =>
      BaseValue.write_data_repr ins type (ins.real value) stream
  | .expr (.CharValue type value), stream =>
      BaseValue.write_data_repr ins type (String.singleton value) stream
  | .expr (.StringValue type value), stream =>
      BaseValue.write_data_repr ins type (toString value) stream
  | .expr (.Variable type ref), stream =>
      Variable.write_data_repr ins type ref stream
  | .expr (.UnOp _ type _), stream => TypedNode.write_data_repr ins type stream
  | .expr (.BinOp (.mk _ type _)), stream =>
      TypedNode.write_data_repr ins type stream
  | .expr (.Call type _ _), stream => TypedNode.write_data_repr ins type stream
  | .stmt (.Block (.mk scope_id _)), stream =>
      Block.write_data_repr ins scope_id stream
  | _, stream => some stream

/-- A child reached through `get_children` is a strict part of its parent:
the recursion of `write_repr` ends. -/
theorem sizeOf_lt_of_mem_get_children (m c : Node)
    (h : some c ∈ get_children m) : sizeOf c < sizeOf m := by
  cases m with
  | expr e =>
    cases e with
    | UnOp cls type child =>
      cases child <;> simp [get_children, Expr.up] at h
      subst h; simp; omega
    | BinOp b =>
      cases b with
      | mk cls type children =>
        simp only [get_children, Expr.up, List.mem_map] at h
        obtain ⟨a, ha, hac⟩ := h
        have hlt := List.sizeOf_lt_of_mem ha
        cases a <;> simp at hac
        subst hac; simp at hlt ⊢; omega
    | Call type left right =>
      simp only [get_children, Expr.up, Exprs.up, List.mem_cons,
        List.mem_singleton, List.not_mem_nil, or_false] at h
      rcases h with h | h
      · cases left <;> simp at h
        subst h; simp; omega
      · cases right <;> simp at h
        subst h; simp; omega
    | _ => simp [get_children] at h
  | exprs es =>
    cases es with
    | mk children =>
      simp only [get_children, Expr.up, List.mem_map] at h
      obtain ⟨a, ha, hac⟩ := h
      have hlt := List.sizeOf_lt_of_mem ha
      cases a <;> simp at hac
      subst hac; simp at hlt ⊢; omega
  | stmt st =>
    cases st with
    | Block b =>
      cases b with
      | mk scope_id children =>
        simp only [get_children, Statement.up, List.mem_map] at h
        obtain ⟨a, ha, hac⟩ := h
        have hlt := List.sizeOf_lt_of_mem ha
        cases a <;> simp at hac
        subst hac; simp at hlt ⊢; omega
    | ExpressionStmt child =>
      cases child <;> simp [get_children, Expr.up] at h
      subst h; simp; omega
    | Statement => simp [get_children] at h
    | _ expr stmt =>
      simp only [get_children, Expr.up, Statement.up, List.mem_cons,
        List.mem_singleton, List.not_mem_nil, or_false] at h
      rcases h with h | h
      · cases expr <;> simp at h
        subst h; simp; omega
      · cases stmt <;> simp at h
        subst h; simp; omega
  | decl d =>
    cases d with
    | Declaration name => simp [get_children] at h
    | FunctionDefinition name body =>
      cases body <;>
        simp [get_children, Block.up, Block.toStatement, Statement.up] at h
      subst h; simp
  | program p =>
    cases p with
    | mk children =>
      simp only [get_children, Declaration.up, List.mem_map] at h
      obtain ⟨a, ha, hac⟩ := h
      have hlt := List.sizeOf_lt_of_mem ha
      cases a <;> simp at hac
      subst hac; simp at hlt ⊢; omega
  | _ => simp [get_children] at h

/-- The method `Node::write_repr(stream)`: an opening bracket and the label, the
data, then for each child in turn a blank and the child's own `write_repr`,
then the closing bracket.  Calling `write_repr` through a null child has no
result. -/
def write_repr (ins : Inserters) (n : Node) (stream : String) : Option String :=
  match write_data_repr ins n (stream ++ "(" ++ get_label n) with
  | none => none
  | some stream =>
    match (get_children n).attach.foldlM
        (fun stream child =>
          match child with
          | ⟨none, _⟩ => none
          | ⟨some c, _⟩ => write_repr ins c (stream ++ " ")) stream with
    | none => none
    | some stream => some (stream ++ ")")
termination_by sizeOf n
decreasing_by
  rename_i hc
  exact sizeOf_lt_of_mem_get_children n c hc

/-- The result of `write_repr` on a fresh stream: the tree dump of a node. -/
def dump (ins : Inserters) (n : Node) : Option String := write_repr ins n ""

/-- What the loop of `write_repr` does with one child pointer: a blank, then
the child's `write_repr`; a null child has no result. -/
def write_child (ins : Inserters) (stream : String) (child : Ptr Node) :
    Option String :=
  child.bind fun c => write_repr ins c (stream ++ " ")

/-- The dumps of the nodes a list of child pointers points at, in order; there
is none when a child is null or has no dump. -/
def children_dumps (ins : Inserters) : List (Ptr Node) → Option (List String)
  | [] => some []
  | child :: rest =>
    match child.bind (dump ins), children_dumps ins rest with
    | some d, some ds => some (d :: ds)
    | _, _ => none

/-- The default member initializer of `TypedNode::type`:
`new types::PrimType{types::PrimKind::VOID}`. -/
def TypedNode.type_init : Ptr Type_ := some (.PrimType .VOID)

/-- The method `TypedNode::get_type` on a `BinOp`. -/
def BinOp.get_type : BinOp → Ptr Type_
  | .mk _ type _ => type

/-- The method `TypedNode::get_type`. -/
def Expr.get_type : ast.Expr → Ptr Type_
  | .Expr type => type
  | .Value type => type
  | .IntegerValue type _ => type
  | .FloatingValue type _ => type
  | .CharValue type _ => type
  | .StringValue type _ => type
  | .Variable type _ => type
  | .UnOp _ type _ => type
  | .BinOp b => b.get_type
  | .Call type _ _ => type

/-- The method `TypedNode::set_type(types::Type* t)` on a `BinOp`. -/
def BinOp.set_type : BinOp → Ptr Type_ → BinOp
  | .mk cls _ children, t => .mk cls t children

/-- The method `TypedNode::set_type(types::Type* t)`: `this->type = t`. -/
def Expr.set_type : ast.Expr → Ptr Type_ → ast.Expr
  | .Expr _, t => .Expr t
  | .Value _, t => .Value t
  | .IntegerValue _ value, t => .IntegerValue t value
  | .FloatingValue _ value, t => .FloatingValue t value
  | .CharValue _ value, t => .CharValue t value
  | .StringValue _ value, t => .StringValue t value
  | .Variable _ ref, t => .Variable t ref
  | .UnOp cls _ child, t => .UnOp cls t child
  | .BinOp b, t => .BinOp (b.set_type t)
  | .Call _ left right, t => .Call t left right

/-- The method `TypedNode::set_type(types::PrimKind k)` on a `BinOp`. -/
def BinOp.set_type_kind (b : BinOp) (k : PrimKind) : BinOp :=
  b.set_type (some (.PrimType k))

/-- The method `TypedNode::set_type(types::PrimKind k)`:
`this->type = new types::PrimType{k}`. -/
def Expr.set_type_kind (e : ast.Expr) (k : PrimKind) : ast.Expr :=
  e.set_type (some (.PrimType k))

/-- The implicit constructor of `Expr`. -/
def Expr.new : ast.Expr := .Expr TypedNode.type_init

/-- The constructor `IntegerValue(long long value)`, through
`BaseValue<long long, INTEGER>`: the value is stored and the type slot set to
`new types::PrimType{type_kind}`. -/
def IntegerValue.new (value : Int) : ast.Expr :=
  .IntegerValue (some (.PrimType .INTEGER)) value

/-- The constructor `FloatingValue(double value)`, through
`BaseValue<double, REAL>`. -/
def FloatingValue.new (value : Float) : ast.Expr :=
  .FloatingValue (some (.PrimType .REAL)) value

/-- The constructor `CharValue(char value)`, through `BaseValue<char, CHAR>`. -/
def CharValue.new (value : Char) : ast.Expr :=
  .CharValue (some (.PrimType .CHAR)) value

/-- The constructor `StringValue(size_t value)`, through
`BaseValue<size_t, VOID>`. -/
def StringValue.new (value : Nat) : ast.Expr :=
  .StringValue (some (.PrimType .VOID)) value

/-- The payload carried by the classes built on `BaseValue`. -/
inductive Payload where
  | integer (value : Int)
  | real (value : Float)
  | char (value : Char)
  | string (value : Nat)

/-- The method `BaseValue::get_value`; the other classes have no such
member. -/
def Expr.get_value : ast.Expr → Option Payload
  | .IntegerValue _ value => some (.integer value)
  | .FloatingValue _ value => some (.real value)
  | .CharValue _ value => some (.char value)
  | .StringValue _ value => some (.string value)
  | _ => none

/-- The constructor `Variable(sbtb::NameRef& ref)`. -/
def Variable.new (ref : sbtb.NameRef) : ast.Expr :=
  .Variable TypedNode.type_init ref

/-- The constructor `UnOp(Expr* child)`, inherited by every class built on
`UnOp`: `SingleChildBase<Expr>(child)` stores the child and asserts it, then
`this->type = child->get_type()`. -/
def UnOp.new (cls : UnOpClass) (child : Ptr ast.Expr) : Option ast.Expr :=
  match child with
  | none => none
  | some c => some (.UnOp cls c.get_type child)

/-- The statement `child->set_type(t)` executed on the operand of a unary
operator node after the node was built: the node's `child` still points at the
same object, whose type slot is now `t`; no field of the node itself is
written. -/
def UnOp.child_set_type : ast.Expr → Ptr Type_ → ast.Expr
  | .UnOp cls type child, t => .UnOp cls type (child.map fun c => c.set_type t)
  | e, _ => e

/-- The constructor `BinOp(Expr* left, Expr* right)`, inherited by every class
built on `BinOp`: both asserted, then
`this->children = std::vector<Expr*>{left, right}`; the type slot keeps its
initializer. -/
def BinOp.new (cls : BinOpClass) (left right : Ptr ast.Expr) : Option ast.BinOp :=
  match left, right with
  | some _, some _ => some (.mk cls TypedNode.type_init [left, right])
  | _, _ => none

/-- The constructor of `Call`, which is `TwoChildrenBase<Expr, Exprs, Expr>`'s:
both stored, then both asserted. -/
def Call.new (left : Ptr ast.Expr) (right : Ptr ast.Exprs) : Option ast.Expr :=
  match left, right with
  | some _, some _ => some (.Call TypedNode.type_init left right)
  | _, _ => none

/-- The constructor `IfStmt(Expr* expr, Statement* stmt)`. -/
def IfStmt.new (expr : Ptr ast.Expr) (stmt : Ptr ast.Statement) :
    Option ast.Statement :=
  match expr, stmt with
  | some _, some _ => some (.IfStmt expr stmt)
  | _, _ => none

/-- The constructor `WhileStmt(Expr* expr, Statement* stmt)`. -/
def WhileStmt.new (expr : Ptr ast.Expr) (stmt : Ptr ast.Statement) :
    Option ast.Statement :=
  match expr, stmt with
  | some _, some _ => some (.WhileStmt expr stmt)
  | _, _ => none

/-- The constructor `DoWhileStmt(Expr* expr, Statement* stmt)`. -/
def DoWhileStmt.new (expr : Ptr ast.Expr) (stmt : Ptr ast.Statement) :
    Option ast.Statement :=
  match expr, stmt with
  | some _, some _ => some (.DoWhileStmt expr stmt)
  | _, _ => none

/-- The constructor of `ExpressionStmt`, which is
`SingleChildBase<Expr, Statement>`'s. -/
def ExpressionStmt.new (child : Ptr ast.Expr) : Option ast.Statement :=
  match child with
  | none => none
  | some _ => some (.ExpressionStmt child)

/-- The constructor `FunctionDefinition(Block* body)`; the `name` of
`Declaration` is default-constructed. -/
def FunctionDefinition.new (body : Ptr ast.Block) : Option ast.Declaration :=
  match body with
  | none => none
  | some _ => some (.FunctionDefinition "" body)

/-- The method `MultiChildrenBase<T, R>::add(T* child)` on the vector
`children`: `assert(child)`, then `push_back`. -/
def MultiChildrenBase.add {T : Type} (children : List (Ptr T)) (child : Ptr T) :
    Option (List (Ptr T)) :=
  match child with
  | none => none
  | some _ => some (children ++ [child])

/-- A fresh `Exprs`. -/
def Exprs.new : ast.Exprs := .mk []

/-- The method `add` of `Exprs`: `MultiChildrenBase<Expr, Node>::add`. -/
def Exprs.add : ast.Exprs → Ptr ast.Expr → Option ast.Exprs
  | .mk children, child => (MultiChildrenBase.add children child).map .mk

/-- The method `add` a `BinOp` inherits: `MultiChildrenBase<Expr>::add`. -/
def BinOp.add : ast.BinOp → Ptr ast.Expr → Option ast.BinOp
  | .mk cls type children, child =>
      (MultiChildrenBase.add children child).map (.mk cls type)

/-- A fresh `Block`: no scope id, no children. -/
def Block.new : ast.Block := .mk none []

/-- The method `Block::add(Statement* stmt)`: the assertion is commented out
and the statement is pushed `if (stmt)`; nothing aborts. -/
def Block.add : ast.Block → Ptr ast.Statement → Option ast.Block
  | .mk scope_id children, stmt =>
      match stmt with
      | some _ => some (.mk scope_id (children ++ [stmt]))
      | none => some (.mk scope_id children)

/-- The method `Block::set_scope(const ScopeId scope_id)`. -/
def Block.set_scope : ast.Block → ScopeId → ast.Block
  | .mk _ children, scope_id => .mk (some scope_id) children

/-- A fresh `Program`. -/
def Program.new : ast.Program := .mk []

/-- The method `Program::add(Declaration* decl)`: `assert(decl)`, then
`push_back`. -/
def Program.add : ast.Program → Ptr ast.Declaration → Option ast.Program
  | .mk children, decl =>
      match decl with
      | none => none
      | some _ => some (.mk (children ++ [decl]))

/-- One public operation on a `BinOp` object after its construction. -/
inductive BinOp.Operation where
  | add (child : Ptr ast.Expr)
  | set_type (t : Ptr Type_)
  | set_type_kind (k : PrimKind)

/-- One public operation performed on a `BinOp`. -/
def BinOp.step (b : ast.BinOp) : BinOp.Operation → Option ast.BinOp
  | .add child => b.add child
  | .set_type t => some (b.set_type t)
  | .set_type_kind k => some (b.set_type_kind k)

/-- A sequence of public operations performed on a `BinOp`, in order. -/
def BinOp.run (b : ast.BinOp) (ops : List BinOp.Operation) : Option ast.BinOp :=
  ops.foldlM BinOp.step b

/-- The children that a sequence of operations passes to `add`, in order. -/
def BinOp.added : List BinOp.Operation → List (Ptr ast.Expr)
  | [] => []
  | .add child :: ops => child :: BinOp.added ops
  | _ :: ops => BinOp.added ops

/-- The public field `scope_id` of a `Block`. -/
def Block.scope_id : ast.Block → Option ScopeId
  | .mk scope_id _ => scope_id

/-- The type slot of an object seen through a `Node*`, when its class has one
(`is_typed()`). -/
def type_slot : Node → Option (Ptr Type_)
  | .TypedNode type => some type
  | .expr e => some e.get_type
  | _ => none

/-- The objects the public constructors and the `add` operations (`Exprs`,
`Program`, `Block`, and the one a `BinOp` inherits) produce, no assertion
failing, from pointers that are null or point at objects so produced. -/
inductive Built : Node → Prop
  | Node : Built .Node
  | TypedNode : Built (.TypedNode TypedNode.type_init)
  | Expr : Built (.expr Expr.new)
  | Value : Built (.expr (.Value TypedNode.type_init))
  | IntegerValue (value : Int) : Built (.expr (IntegerValue.new value))
  | FloatingValue (value : Float) : Built (.expr (FloatingValue.new value))
  | CharValue (value : Char) : Built (.expr (CharValue.new value))
  | StringValue (value : Nat) : Built (.expr (StringValue.new value))
  | Variable (ref : sbtb.NameRef) : Built (.expr (Variable.new ref))
  | UnOp (cls : UnOpClass) (child : Ptr ast.Expr) (u : ast.Expr) :
      (∀ c, child = some c → Built (.expr c)) →
      UnOp.new cls child = some u → Built (.expr u)
  | BinOp (cls : BinOpClass) (left right : Ptr ast.Expr) (b : ast.BinOp) :
      (∀ c, left = some c → Built (.expr c)) →
      (∀ c, right = some c → Built (.expr c)) →
      BinOp.new cls left right = some b → Built (.expr (.BinOp b))
  | BinOp_add (b : ast.BinOp) (child : Ptr ast.Expr) (b1 : ast.BinOp) :
      Built (.expr (.BinOp b)) →
      (∀ c, child = some c → Built (.expr c)) →
      BinOp.add b child = some b1 → Built (.expr (.BinOp b1))
  | Exprs : Built (.exprs Exprs.new)
  | Exprs_add (es : ast.Exprs) (child : Ptr ast.Expr) (es1 : ast.Exprs) :
      Built (.exprs es) →
      (∀ c, child = some c → Built (.expr c)) →
      Exprs.add es child = some es1 → Built (.exprs es1)
  | Call (left : Ptr ast.Expr) (right : Ptr ast.Exprs) (call : ast.Expr) :
      (∀ c, left = some c → Built (.expr c)) →
      (∀ c, right = some c → Built (.exprs c)) →
      Call.new left right = some call → Built (.expr call)
  | Statement : Built (.stmt .Statement)
  | IfStmt (expr : Ptr ast.Expr) (stmt : Ptr ast.Statement) (st : ast.Statement) :
      (∀ c, expr = some c → Built (.expr c)) →
      (∀ c, stmt = some c → Built (.stmt c)) →
      IfStmt.new expr stmt = some st → Built (.stmt st)
  | WhileStmt (expr : Ptr ast.Expr) (stmt : Ptr ast.Statement) (st : ast.Statement) :
      (∀ c, expr = some c → Built (.expr c)) →
      (∀ c, stmt = some c → Built (.stmt c)) →
      WhileStmt.new expr stmt = some st → Built (.stmt st)
  | DoWhileStmt (expr : Ptr ast.Expr) (stmt : Ptr ast.Statement) (st : ast.Statement) :
      (∀ c, expr = some c → Built (.expr c)) →
      (∀ c, stmt = some c → Built (.stmt c)) →
      DoWhileStmt.new expr stmt = some st → Built (.stmt st)
  | Block : Built (.stmt (.Block Block.new))
  | Block_add (b : ast.Block) (stmt : Ptr ast.Statement) (b1 : ast.Block) :
      Built (.stmt (.Block b)) →
      (∀ c, stmt = some c → Built (.stmt c)) →
      Block.add b stmt = some b1 → Built (.stmt (.Block b1))
  | ExpressionStmt (child : Ptr ast.Expr) (st : ast.Statement) :
      (∀ c, child = some c → Built (.expr c)) →
      ExpressionStmt.new child = some st → Built (.stmt st)
  | Declaration : Built (.decl (.Declaration ""))
  | FunctionDefinition (body : Ptr ast.Block) (d : ast.Declaration) :
      (∀ c, body = some c → Built (.stmt (.Block c))) →
      FunctionDefinition.new body = some d → Built (.decl d)
  | Program : Built (.program Program.new)
  | Program_add (p : ast.Program) (d : Ptr ast.Declaration) (p1 : ast.Program) :
      Built (.program p) →
      (∀ c, d = some c → Built (.decl c)) →
      Program.add p d = some p1 → Built (.program p1)

/-- No node of the tree under `n` has a null pointer among its children. -/
inductive NoNullChild : Node → Prop
  | intro (n : Node) :
      none ∉ get_children n →
      (∀ c, some c ∈ get_children n → NoNullChild c) → NoNullChild n

/-- No node of the tree under `n` has a null pointer among its children or a
null type slot: nothing `write_repr` dereferences is null. -/
inductive NoNull : Node → Prop
  | intro (n : Node) :
      type_slot n ≠ some none →
      none ∉ get_children n →
      (∀ c, some c ∈ get_children n → NoNull c) → NoNull n

/-- The shape of a tree: at each node its label and, for each child pointer in
order, the shape of the child, or nothing for a null pointer. -/
inductive Shape where
  | node (label : String) (children : List (Option Shape))

/-- The shape of the tree under a node. -/
def shape (n : Node) : Shape :=
  .node (get_label n) ((get_children n).attach.map fun child =>
    match child with
    | ⟨none, _⟩ => none
    | ⟨some c, _⟩ => some (shape c))
termination_by sizeOf n
decreasing_by
  rename_i hc
  exact sizeOf_lt_of_mem_get_children n c hc

/-- The state of a reader going through the text of a node after its opening
bracket: the bracket depth, whether it is inside double quotes, the text of the
child being read, the children read so far, and whether the closing bracket of
the node was met. -/
structure Scan where
  depth : Nat
  quoted : Bool
  current : List Char
  children : List (List Char)
  closed : Bool

/-- The reader on one character. Quoted text is skipped over; outside quotes an
opening bracket goes one level down and a closing one comes back up, a child
being complete when the depth is back to zero; text at depth zero belongs to
the node itself and is dropped; nothing may follow the closing bracket of the
node. -/
def Scan.step (st : Scan) (c : Char) : Option Scan :=
  if st.closed then none
  else if st.quoted then
    some { st with
      quoted := c != '"'
      current := if st.depth = 0 then st.current else st.current ++ [c] }
  else if c = '"' then
    some { st with
      quoted := true
      current := if st.depth = 0 then st.current else st.current ++ [c] }
  else if c = '(' then
    some { st with depth := st.depth + 1, current := st.current ++ [c] }
  else if c = ')' then
    match st.depth with
    | 0 => some { st with closed := true }
    | 1 => some { st with
        depth := 0
        current := []
        children := st.children ++ [st.current ++ [c]] }
    | d + 2 => some { st with depth := d + 1, current := st.current ++ [c] }
  else
    some { st with
      current := if st.depth = 0 then st.current else st.current ++ [c] }

/-- The label at the head of the text of a node: the text up to the first
blank or bracket outside double quotes. -/
def read_label : Bool → List Char → List Char
  | _, [] => []
  | true, c :: cs => c :: read_label (c != '"') cs
  | false, c :: cs =>
    if c = ' ' ∨ c = '(' ∨ c = ')' then [] else c :: read_label (c == '"') cs

/-- Reading a dump back as a bracketed expression, one level deep: the label
and the texts of the children, in order. -/
def read_node (dump : String) : Option (String × List String) :=
  match dump.toList with
  | '(' :: rest =>
    match rest.foldlM Scan.step ⟨0, false, [], [], false⟩ with
    | some st =>
      if st.closed then
        some (String.mk (read_label false rest), st.children.map String.mk)
      else none
    | none => none
  | _ => none

/-- Reading a dump back as a tree of labels, the children read in turn; the
first argument bounds the depth read. -/
def read_tree : Nat → String → Option Shape
  | 0, _ => none
  | fuel + 1, dump =>
    match read_node dump with
    | none => none
    | some (label, dumps) =>
      if (dumps.map (read_tree fuel)).all Option.isSome then
        some (.node label (dumps.map (read_tree fuel)))
      else none

/-- A text that keeps its brackets inside double quotes and closes every
double quote it opens; the flag tells whether the text starts inside quotes. -/
def plain : Bool → List Char → Bool
  | quoted, [] => !quoted
  | true, c :: cs => plain (c != '"') cs
  | false, c :: cs => c != '(' && c != ')' && plain (c == '"') cs

/-- A tree that a bracket reader can read back: no null child, and at every
node a data fragment that keeps its brackets inside double quotes. -/
inductive Readable (ins : Inserters) : Node → Prop
  | intro (n : Node) (data : String) :
      write_data_repr ins n "" = some data →
      plain false data.toList = true →
      none ∉ get_children n →
      (∀ c, some c ∈ get_children n → Readable ins c) → Readable ins n

/-- A text fit to be a label: brackets and blanks in it are inside double
quotes, and every double quote it opens is closed. -/
def label_like : Bool → List Char → Bool
  | quoted, [] => !quoted
  | true, c :: cs => label_like (c != '"') cs
  | false, c :: cs => c != ' ' && c != '(' && c != ')' && label_like (c == '"') cs

/-- A text that a reader inside a child goes through keeping its depth, taking
the whole text into the child being read. -/
def Nested (d : List Char) : Prop :=
  ∀ st : Scan, st.closed = false → st.quoted = false → 1 ≤ st.depth →
    d.foldlM Scan.step st = some { st with current := st.current ++ d }

/-- The number of child pointers of a node is read off its shape. -/
def Shape.arity : Shape → Nat
  | .node _ children => children.length

end ast

namespace decl

open types

/-- The struct `AbstractDeclarator`: the counter `pointer` and the vector
`builders`. -/
structure AbstractDeclarator where
  pointer : Nat := 0
  builders : List Builder := []

/-- The method `AbstractDeclarator::add(ContainerType::Builder builder)`. -/
def AbstractDeclarator.add (d : AbstractDeclarator) (builder : Builder) :
    AbstractDeclarator :=
  { d with builders := d.builders ++ [builder] }

/-- The struct `Declarator`: an `AbstractDeclarator` with a `name` and an
optional `init_expr`. -/
structure Declarator extends AbstractDeclarator where
  name : String
  init_expr : Option (Ptr ast.Expr) := none

/-- The constructor `Declarator(const std::string& name)`. -/
def Declarator.new (name : String) : Declarator := { name := name }

/-- The method `add` a `Declarator` inherits from `AbstractDeclarator`. -/
def Declarator.add (d : Declarator) (builder : Builder) : Declarator :=
  { d with toAbstractDeclarator := d.toAbstractDeclarator.add builder }

/-- The method `Declarator::set_init(ast::Expr* init_expr)`. -/
def Declarator.set_init (d : Declarator) (init_expr : Ptr ast.Expr) : Declarator :=
  { d with init_expr := some init_expr }

/-- The struct `InitDeclarators`: a `std::vector<Declarator*>`. -/
abbrev InitDeclarators : Type := List (Ptr Declarator)

/-- The method `InitDeclarators::add(Declarator* init)`. -/
def InitDeclarators.add (decls : InitDeclarators) (init : Ptr Declarator) :
    InitDeclarators :=
  decls ++ [init]

/-- The classes built on `DeclarationSpec`: a `StorageClassSpec` with its
`kind`, or a `TypeDeclSpec` with its `value`. -/
inductive DeclarationSpec where
  | StorageClassSpec (kind : StorageClassSpec.Kind)
  | TypeDeclSpec (value : TypeQualOrTypeSpec)
  deriving DecidableEq, Repr

/-- The method `TypeDeclSpec::get`; a `StorageClassSpec` has no such member. -/
def DeclarationSpec.get : DeclarationSpec → Option TypeQualOrTypeSpec
  | .TypeDeclSpec value => some value
  | .StorageClassSpec _ => none

/-- The struct `DeclarationSpecs`: a `std::vector<DeclarationSpec*>`. -/
abbrev DeclarationSpecs : Type := List (Ptr DeclarationSpec)

/-- The method `DeclarationSpecs::add(DeclarationSpec* spec)`. -/
def DeclarationSpecs.add (specs : DeclarationSpecs) (spec : Ptr DeclarationSpec) :
    DeclarationSpecs :=
  specs ++ [spec]

/-- The ways the declaration pipeline stops, after the error taxonomy of the
specification. -/
inductive Failure where
  | non_constant_array_bound
  | duplicate_name (name : String)
  | null_pointer
  | no_type_specifier
  | type_mismatch
  deriving DecidableEq, Repr

/-- Modelled from the spec: `resolve_array_size(expr) -> non-negative integer`
(its body is not among the sources): it "succeeds only if the expression is a
compile-time-constant integer literal", with the value of the literal; "any
other expression kind fails with a non-constant array bound error". -/
def resolve_array_size : ast.Expr → Except Failure Nat
  | .IntegerValue _ value => .ok value.toNat
  | _ => .error .non_constant_array_bound

/-- Modelled from the spec: `vector_type_builder(ast::Expr* size_expr)`,
declared in `declarations.hpp` and defined elsewhere: "returns a vector type
builder, resolving the expression `size_expr` to an integer literal, printing
an error and aborting on failure". -/
def vector_type_builder (size_expr : Ptr ast.Expr) : Except Failure Builder :=
  match size_expr with
  | none => .error .null_pointer
  | some e =>
    match resolve_array_size e with
    | .ok count => .ok (.array count)
    | .error f => .error f

/-- Modelled from the spec: the base type under the pointer markers of a
declarator, whose number the counter `pointer` holds: wrapped in POINTER once
for each marker (`int **p` has POINTER(POINTER(INTEGER))). -/
def pointer_type : Nat → Type_ → Type_
  | 0, base => base
  | depth + 1, base => .POINTER (pointer_type depth base)

/-- Modelled from the spec: one step of the assembly of a type, a builder
applied to the type built so far; a "type mismatch during builder application
(e.g., array of void)" is "rejected at assembly time, not deferred". -/
def apply_builder (inner : Type_) (builder : Builder) : Except Failure Type_ :=
  match builder, inner with
  | .array _, .PrimType .VOID => .error .type_mismatch
  | _, _ => .ok (builder.build inner)

/-- Modelled from the spec: the type `declare` gives a declared name (the body
of `declare` is not among the sources): the pointer markers counted in
`pointer` wrap the base type, then "that declarator's builder sequence" is
applied; the order fixed here is the order of the sequence, its first builder
applied first and each later one to the type built so far, so that the array
suffixes bind tighter than the pointer markers. -/
def declared_type (base : Type_) (d : AbstractDeclarator) : Except Failure Type_ :=
  d.builders.foldlM apply_builder (pointer_type d.pointer base)

/-- Modelled from the spec: the base type `declare` establishes from the
specifiers: the primitive type named by the first type specifier among them;
storage-class specifiers and qualifiers "do not alter the type value". -/
def base_type : DeclarationSpecs → Option Type_
  | [] => none
  | some (.TypeDeclSpec (.TypeSpec kind)) :: _ => some (.PrimType kind)
  | _ :: specs => base_type specs

/-- Modelled from the spec: the storage class `declare` records from the
specifiers: the first storage-class specifier among them, if any. -/
def storage_class : DeclarationSpecs → Option StorageClassSpec.Kind
  | [] => none
  | some (.StorageClassSpec kind) :: _ => some kind
  | _ :: specs => storage_class specs

/-- Modelled from the spec: one step of `declare`, for one declarator: "apply
that declarator's builder sequence to produce the final type, then insert a
binding {name, type, storage} into the currently open lexical scope"; a type
mismatch and a refused insertion are surfaced. -/
def declare_one (base : Type_) (storage : Option StorageClassSpec.Kind)
    (scope : sbtb.Scope) (d : Ptr Declarator) : Except Failure sbtb.Scope :=
  match d with
  | none => .error .null_pointer
  | some d =>
    match declared_type base d.toAbstractDeclarator with
    | .error f => .error f
    | .ok type =>
      match sbtb.insert scope d.name type storage with
      | none => .error (.duplicate_name d.name)
      | some (scope, _) => .ok scope

/-- Modelled from the spec: `declare(specs, decls)`, declared in
`declarations.hpp` and defined elsewhere, on the scope currently open: "for
each declarator, establish the base type from specs, apply that declarator's
builder sequence to produce the final type, then insert a binding". -/
def declare (specs : DeclarationSpecs) (decls : InitDeclarators)
    (scope : sbtb.Scope) : Except Failure sbtb.Scope :=
  match base_type specs with
  | none => .error .no_type_specifier
  | some base => decls.foldlM (declare_one base (storage_class specs)) scope

/-- The binding `declare` makes for a declarator: its name, the type its own
counter and builders make of the base type, and the storage. -/
def Declared (base : Type_) (storage : Option StorageClassSpec.Kind)
    (d : Declarator) (b : sbtb.Binding) : Prop :=
  b.name = d.name ∧ declared_type base d.toAbstractDeclarator = .ok b.type
    ∧ b.storage = storage

end decl

namespace ast

open types

/-- Folding over `l.attach` with a step that forgets the membership proof is
folding over `l`. -/
theorem foldlM_attach_forget {α β : Type} (g : β → α → Option β) (l0 : List α) :
    ∀ (l : List α) (hsub : ∀ x ∈ l, x ∈ l0) (b : β),
      (l.attach.map fun x => (⟨x.1, hsub x.1 x.2⟩ : { x // x ∈ l0 })).foldlM
        (fun b x => g b x.1) b = l.foldlM g b := by
  intro l
  induction l with
  | nil => intros; rfl
  | cons a l ih =>
    intro hsub b
    simp only [List.attach_cons, List.map_cons, List.foldlM_cons, List.map_map]
    cases g b a with
    | none => rfl
    | some b1 =>
      simp only [Option.bind_eq_bind, Option.some_bind]
      have := ih (fun x hx => hsub x (List.mem_cons_of_mem _ hx)) b1
      simpa [Function.comp_def] using this

/-- The defining equation of `write_repr`, the loop written over the children
themselves. -/
theorem write_repr_unfold (ins : Inserters) (n : Node) (stream : String) :
    write_repr ins n stream =
      (write_data_repr ins n (stream ++ "(" ++ get_label n)).bind fun s1 =>
        ((get_children n).foldlM (write_child ins) s1).map (· ++ ")") := by
  rw [write_repr]
  cases h : write_data_repr ins n (stream ++ "(" ++ get_label n) with
  | none => rfl
  | some s1 =>
    simp only [Option.some_bind]
    have key := foldlM_attach_forget (write_child ins) (get_children n)
      (get_children n) (fun _ h => h) s1
    simp only [List.map_id', Subtype.coe_eta] at key
    have hfun : ∀ f : String → { x // x ∈ get_children n } → Option String,
        (∀ s x, f s x = write_child ins s x.1) →
        (get_children n).attach.foldlM f s1
          = (get_children n).attach.foldlM (fun b x => write_child ins b x.1) s1 := by
      intro f hf
      have : f = fun b x => write_child ins b x.1 := by
        funext s x; exact hf s x
      rw [this]
    rw [hfun _ (fun s x => ?_), key]
    · cases (get_children n).foldlM (write_child ins) s1 <;> rfl
    · obtain ⟨x, hx⟩ := x
      cases x <;> rfl

/-- `String.join` of a list with a head. -/
theorem join_cons (a : String) (l : List String) :
    String.join (a :: l) = a ++ String.join l := by
  apply String.ext
  simp [String.data_join]

/-- `TypedNode::write_data_repr` only appends to the stream. -/
theorem typed_data_repr_append (ins : Inserters) (type : Ptr Type_)
    (stream : String) :
    TypedNode.write_data_repr ins type stream =
      (TypedNode.write_data_repr ins type "").map (stream ++ ·) := by
  cases type <;> simp [TypedNode.write_data_repr, String.append_assoc]

/-- `BaseValue::write_data_repr` only appends to the stream. -/
theorem value_data_repr_append (ins : Inserters) (type : Ptr Type_)
    (shown stream : String) :
    BaseValue.write_data_repr ins type shown stream =
      (BaseValue.write_data_repr ins type shown "").map (stream ++ ·) := by
  cases type <;>
    simp [BaseValue.write_data_repr, TypedNode.write_data_repr,
      String.append_assoc]

/-- Every overrider of `write_data_repr` only appends to the stream. -/
theorem write_data_repr_append (ins : Inserters) (n : Node) (stream : String) :
    write_data_repr ins n stream =
      (write_data_repr ins n "").map (stream ++ ·) := by
  cases n with
  | Node => simp [write_data_repr]
  | TypedNode type =>
    simpa [write_data_repr] using typed_data_repr_append ins type stream
  | expr e =>
    cases e with
    | BinOp b =>
      cases b
      simpa [write_data_repr] using typed_data_repr_append ins _ stream
    | Variable type ref =>
      cases type <;>
        simp [write_data_repr, Variable.write_data_repr,
          TypedNode.write_data_repr, String.append_assoc]
    | IntegerValue type value =>
      simpa [write_data_repr] using value_data_repr_append ins type _ stream
    | FloatingValue type value =>
      simpa [write_data_repr] using value_data_repr_append ins type _ stream
    | CharValue type value =>
      simpa [write_data_repr] using value_data_repr_append ins type _ stream
    | StringValue type value =>
      simpa [write_data_repr] using value_data_repr_append ins type _ stream
    | _ =>
      simpa [write_data_repr] using typed_data_repr_append ins _ stream
  | exprs es => simp [write_data_repr]
  | stmt st =>
    cases st with
    | Block b =>
      cases b with
      | mk scope_id children =>
        cases scope_id <;>
          simp [write_data_repr, Block.write_data_repr, String.append_assoc]
    | _ => simp [write_data_repr]
  | decl d => simp [write_data_repr]
  | program p => simp [write_data_repr]

/-- The loop of `write_repr` over children that only append: it appends, for
each child in turn, a blank and the child's dump. -/
theorem foldlM_write_child (ins : Inserters) (children : List (Ptr Node))
    (happ : ∀ c, some c ∈ children → ∀ s,
      write_repr ins c s = (dump ins c).map (s ++ ·)) (stream : String) :
    children.foldlM (write_child ins) stream =
      (children_dumps ins children).map fun dumps =>
        stream ++ String.join (dumps.map (" " ++ ·)) := by
  induction children generalizing stream with
  | nil => simp [children_dumps, String.join]
  | cons child rest ih =>
    have ih := ih (fun c hc => happ c (List.mem_cons_of_mem _ hc))
    cases child with
    | none => simp [children_dumps, write_child]
    | some c =>
      have hc := happ c (List.mem_cons_self _ _)
      simp only [List.foldlM_cons, write_child, Option.some_bind, children_dumps,
        Option.bind_eq_bind] at ih ⊢
      rw [hc]
      cases hd : dump ins c with
      | none => simp
      | some d =>
        simp only [Option.map_some', Option.some_bind]
        rw [ih]
        cases children_dumps ins rest with
        | none => simp
        | some ds => simp [join_cons, String.append_assoc]

/-- `write_repr` only appends to the stream it is given. -/
theorem write_repr_append (ins : Inserters) (n : Node) :
    ∀ stream, write_repr ins n stream = (dump ins n).map (stream ++ ·) := by
  generalize hsz : sizeOf n = k
  induction k using Nat.strong_induction_on generalizing n with
  | _ k ih =>
    intro stream
    have hchildren : ∀ c, some c ∈ get_children n → ∀ s,
        write_repr ins c s = (dump ins c).map (s ++ ·) := fun c hc =>
      ih (sizeOf c) (hsz ▸ sizeOf_lt_of_mem_get_children n c hc) c rfl
    rw [dump, write_repr_unfold ins n stream, write_repr_unfold ins n ""]
    rw [write_data_repr_append ins n (stream ++ "(" ++ get_label n),
      write_data_repr_append ins n ("" ++ "(" ++ get_label n)]
    cases write_data_repr ins n "" with
    | none => rfl
    | some data =>
      simp only [Option.map_some', Option.some_bind]
      rw [foldlM_write_child ins _ hchildren, foldlM_write_child ins _ hchildren]
      cases children_dumps ins (get_children n) with
      | none => rfl
      | some dumps => simp [String.append_assoc]

/-- The dump of a node from its label, its data and the dumps of its children. -/
theorem dump_eq (ins : Inserters) (n : Node) :
    dump ins n =
      match write_data_repr ins n "", children_dumps ins (get_children n) with
      | some data, some dumps =>
          some ("(" ++ get_label n ++ data
            ++ String.join (dumps.map (" " ++ ·)) ++ ")")
      | _, _ => none := by
  rw [dump, write_repr_unfold, write_data_repr_append]
  cases write_data_repr ins n "" with
  | none => rfl
  | some data =>
    simp only [Option.map_some', Option.some_bind]
    rw [foldlM_write_child ins _ (fun c _ => write_repr_append ins c)]
    cases children_dumps ins (get_children n) with
    | none => rfl
    | some dumps => simp [String.append_assoc]

/-- C1: `write_repr` appends to the stream exactly an opening bracket, the
label of the node, the data `write_data_repr` emits, then for each child of
`get_children` in order a blank and the dump of that child, then a closing
bracket (and has no result when the type slot or a child it must dereference is
null); in particular a node without children and without data dumps as its
label in brackets, and an `Exprs` without children dumps as `()`. -/
theorem write_repr_format (ins : Inserters) (n : Node) :
    (∀ stream, write_repr ins n stream =
      match write_data_repr ins n "", children_dumps ins (get_children n) with
      | some data, some dumps =>
          some (stream ++ ("(" ++ get_label n ++ data
            ++ String.join (dumps.map (" " ++ ·)) ++ ")"))
      | _, _ => none)
    ∧ (get_children n = [] → write_data_repr ins n "" = some "" →
        dump ins n = some ("(" ++ get_label n ++ ")"))
    ∧ dump ins (.exprs Exprs.new) = some "()" := by
  refine ⟨fun stream => ?_, fun hc hd => ?_, ?_⟩
  · rw [write_repr_append, dump_eq]
    cases write_data_repr ins n "" <;>
      cases children_dumps ins (get_children n) <;> rfl
  · rw [dump_eq, hc, hd]
    simp [children_dumps, String.join]
  · rw [dump_eq]
    simp [write_data_repr, get_children, Exprs.new, children_dumps, get_label,
      String.join]

/-- C1 at a bare `Statement`, which has no children and no data: it dumps as
`(Statement)`. -/
theorem write_repr_format_witness :
    get_children (.stmt .Statement) = []
    ∧ write_data_repr Inserters.sample (.stmt .Statement) "" = some ""
    ∧ dump Inserters.sample (.stmt .Statement) = some "(Statement)" :=
  ⟨rfl, rfl, (write_repr_format Inserters.sample (.stmt .Statement)).2.1 rfl rfl⟩

end ast

namespace decl

open types

end decl

namespace ast

open types

/-- C3: a freshly constructed value leaf reports the primitive type of its
literal's static kind (`IntegerValue` INTEGER, `FloatingValue` REAL,
`CharValue` CHAR), it has no children, and `get_value` returns the payload it
was constructed with. -/
theorem value_leaf_type_matches_kind (i : Int) (r : Float) (c : Char) :
    (IntegerValue.new i).get_type = some (.PrimType .INTEGER)
    ∧ (FloatingValue.new r).get_type = some (.PrimType .REAL)
    ∧ (CharValue.new c).get_type = some (.PrimType .CHAR)
    ∧ (IntegerValue.new i).get_value = some (.integer i)
    ∧ (FloatingValue.new r).get_value = some (.real r)
    ∧ (CharValue.new c).get_value = some (.char c)
    ∧ get_children (.expr (IntegerValue.new i)) = []
    ∧ get_children (.expr (FloatingValue.new r)) = []
    ∧ get_children (.expr (CharValue.new c)) = [] :=
  ⟨rfl, rfl, rfl, rfl, rfl, rfl, rfl, rfl, rfl⟩

/-- C4: a unary operator node built from a non-null operand `e` through the
constructor of `UnOp` reports the type `e` had when the node was built and has
`e` as its only child; the type is copied into the node's own slot, so
retyping `e` afterwards (either overload of `set_type`) changes the child and
leaves the node's type as it was. -/
theorem unop_type_is_operand_type (cls : UnOpClass) (e : Expr) :
    ∃ u, UnOp.new cls (some e) = some u
      ∧ u.get_type = e.get_type
      ∧ get_children (.expr u) = [some (.expr e)]
      ∧ (∀ t : Ptr Type_,
          (UnOp.child_set_type u t).get_type = e.get_type
          ∧ get_children (.expr (UnOp.child_set_type u t))
              = [some (.expr (e.set_type t))])
      ∧ (∀ k : PrimKind,
          (UnOp.child_set_type u (some (.PrimType k))).get_type = e.get_type
          ∧ get_children (.expr (UnOp.child_set_type u (some (.PrimType k))))
              = [some (.expr (e.set_type_kind k))]) :=
  ⟨.UnOp cls e.get_type (some e), rfl, rfl, rfl, fun _ => ⟨rfl, rfl⟩,
    fun _ => ⟨rfl, rfl⟩⟩

/-- A type is not a pointer to itself. -/
theorem Type_.ne_POINTER_self (T : Type_) : T ≠ .POINTER T := by
  intro h
  have := congrArg sizeOf h
  simp at this

/-- C5 as stated fails: `AddressOf` built on the integer literal 1, whose type
is INTEGER, reports INTEGER and not POINTER(INTEGER). -/
theorem addressof_not_pointer_counterexample :
    (IntegerValue.new 1).get_type = some (.PrimType .INTEGER)
    ∧ (UnOp.new .AddressOf (some (IntegerValue.new 1))).map Expr.get_type
        = some (some (.PrimType .INTEGER))
    ∧ ¬ (∀ (e : Expr) (T : Type_), e.get_type = some T →
          ∀ u, UnOp.new .AddressOf (some e) = some u →
            u.get_type = some (.POINTER T)) := by
  refine ⟨rfl, rfl, fun h => ?_⟩
  have := h (IntegerValue.new 1) (.PrimType .INTEGER) rfl _ rfl
  exact absurd this (by decide)

/-- C5, amended: `AddressOf` built on a non-null operand of type `T` is built
by the constructor of `UnOp` and reports the operand's own type `T`, which is
never POINTER(T). -/
theorem addressof_type_is_operand_type (e : Expr) (T : Type_)
    (hT : e.get_type = some T) :
    ∃ u, UnOp.new .AddressOf (some e) = some u
      ∧ u.get_type = some T
      ∧ u.get_type ≠ some (.POINTER T)
      ∧ get_children (.expr u) = [some (.expr e)] := by
  refine ⟨.UnOp .AddressOf e.get_type (some e), rfl, hT, ?_, rfl⟩
  show e.get_type ≠ some (.POINTER T)
  rw [hT]
  exact fun h => Type_.ne_POINTER_self T (Option.some.inj h)

/-- C5, amended, at `AddressOf` built on the character literal `c`. -/
theorem addressof_type_is_operand_type_witness :
    (CharValue.new 'c').get_type = some (.PrimType .CHAR)
    ∧ ∃ u, UnOp.new .AddressOf (some (CharValue.new 'c')) = some u
      ∧ u.get_type = some (.PrimType .CHAR)
      ∧ u.get_type ≠ some (.POINTER (.PrimType .CHAR))
      ∧ get_children (.expr u) = [some (.expr (CharValue.new 'c'))] :=
  ⟨rfl, addressof_type_is_operand_type (CharValue.new 'c') (.PrimType .CHAR) rfl⟩

/-- One operation on a `BinOp` either appends the added child or leaves the
children as they are. -/
theorem BinOp.step_children (b b1 : BinOp) (op : BinOp.Operation)
    (h : BinOp.step b op = some b1) :
    get_children (.expr (.BinOp b1))
      = get_children (.expr (.BinOp b)) ++ (BinOp.added [op]).map Expr.up := by
  obtain ⟨cls, type, children⟩ := b
  cases op with
  | add child =>
    cases child with
    | none => simp [BinOp.step, BinOp.add, MultiChildrenBase.add] at h
    | some c =>
      simp only [BinOp.step, BinOp.add, MultiChildrenBase.add, Option.map_some',
        Option.some.injEq] at h
      subst h
      simp [get_children, BinOp.added]
  | set_type t =>
    simp only [BinOp.step, BinOp.set_type, Option.some.injEq] at h
    subst h
    simp [get_children, BinOp.added]
  | set_type_kind k =>
    simp only [BinOp.step, BinOp.set_type_kind, BinOp.set_type, Option.some.injEq] at h
    subst h
    simp [get_children, BinOp.added]

/-- The children added by a sequence are those of its first operation, then
those of the rest. -/
theorem BinOp.added_cons (op : BinOp.Operation) (ops : List BinOp.Operation) :
    BinOp.added (op :: ops) = BinOp.added [op] ++ BinOp.added ops := by
  cases op <;> simp [BinOp.added]

/-- A sequence of operations on a `BinOp` appends the added children, in
order. -/
theorem BinOp.run_children (ops : List BinOp.Operation) :
    ∀ (b b1 : BinOp), BinOp.run b ops = some b1 →
      get_children (.expr (.BinOp b1))
        = get_children (.expr (.BinOp b)) ++ (BinOp.added ops).map Expr.up := by
  induction ops with
  | nil =>
    intro b b1 h
    simp only [BinOp.run, List.foldlM_nil, Option.pure_def, Option.some.injEq] at h
    subst h
    simp [BinOp.added]
  | cons op ops ih =>
    intro b b1 h
    simp only [BinOp.run, List.foldlM_cons, Option.bind_eq_bind] at h
    cases hs : BinOp.step b op with
    | none => simp [hs] at h
    | some b2 =>
      rw [hs, Option.some_bind] at h
      rw [BinOp.added_cons op ops, ih b2 b1 h, BinOp.step_children b b2 op hs]
      simp

/-- A sequence of operations on a `BinOp` runs to its end exactly when no `add`
in it passes a null child. -/
theorem BinOp.run_isSome (ops : List BinOp.Operation) :
    ∀ b : BinOp, (BinOp.run b ops).isSome ↔ none ∉ BinOp.added ops := by
  induction ops with
  | nil => intro b; simp [BinOp.run, BinOp.added]
  | cons op ops ih =>
    intro b
    obtain ⟨cls, type, children⟩ := b
    simp only [BinOp.run, List.foldlM_cons, Option.bind_eq_bind] at ih ⊢
    cases op with
    | add child =>
      cases child with
      | none => simp [BinOp.step, BinOp.add, MultiChildrenBase.add, BinOp.added]
      | some c =>
        simp [BinOp.step, BinOp.add, MultiChildrenBase.add, BinOp.added, ih]
    | set_type t => simp [BinOp.step, BinOp.added, ih]
    | set_type_kind k => simp [BinOp.step, BinOp.added, ih]

/-- C6 as stated fails: one `add` on a freshly built `Plus` node leaves it with
three children. -/
theorem binop_fixed_arity_counterexample :
    (∃ b0 b, BinOp.new .Plus (some (IntegerValue.new 1)) (some (IntegerValue.new 2)) = some b0
      ∧ BinOp.run b0 [.add (some (IntegerValue.new 3))] = some b
      ∧ get_children (.expr (.BinOp b))
          = [some (.expr (IntegerValue.new 1)), some (.expr (IntegerValue.new 2)),
              some (.expr (IntegerValue.new 3))]
      ∧ (get_children (.expr (.BinOp b))).length = 3)
    ∧ ¬ (∀ (cls : BinOpClass) (left right : Expr) (ops : List BinOp.Operation)
          (b0 b : BinOp), BinOp.new cls (some left) (some right) = some b0 →
          BinOp.run b0 ops = some b →
          get_children (.expr (.BinOp b)) = [some (.expr left), some (.expr right)]) := by
  refine ⟨⟨_, _, rfl, rfl, rfl, rfl⟩, fun h => ?_⟩
  have := h .Plus (IntegerValue.new 1) (IntegerValue.new 2)
    [.add (some (IntegerValue.new 3))] _ _ rfl rfl
  have := congrArg List.length this
  simp [get_children] at this

/-- C6, amended: a binary operator node built from non-null `left` and `right`
has exactly the children `[left, right]`; `set_type` in either overload never
changes them; the inherited `add` appends its non-null argument. After any
sequence of operations that runs to its end the children are `left`, `right`
and then the added children in order, so the node has two children exactly
when nothing was added. -/
theorem binop_children_after_operations (cls : BinOpClass) (left right : Expr)
    (ops : List BinOp.Operation) (b : BinOp)
    (hrun : (BinOp.new cls (some left) (some right)).bind (fun b0 => BinOp.run b0 ops)
      = some b) :
    BinOp.new cls (some left) (some right)
        = some (.mk cls TypedNode.type_init [some left, some right])
    ∧ get_children (.expr (.BinOp (.mk cls TypedNode.type_init [some left, some right])))
        = [some (.expr left), some (.expr right)]
    ∧ get_children (.expr (.BinOp b))
        = [some (.expr left), some (.expr right)] ++ (BinOp.added ops).map Expr.up
    ∧ (get_children (.expr (.BinOp b))).length = 2 + (BinOp.added ops).length
    ∧ none ∉ BinOp.added ops := by
  have hnew : BinOp.new cls (some left) (some right)
      = some (.mk cls TypedNode.type_init [some left, some right]) := rfl
  rw [hnew, Option.some_bind] at hrun
  have hch := BinOp.run_children ops _ _ hrun
  have hsome := (BinOp.run_isSome ops _).mp (by rw [hrun]; rfl)
  refine ⟨rfl, rfl, ?_, ?_, hsome⟩
  · rw [hch]; rfl
  · rw [hch]; simp [get_children]; omega

/-- C6, amended, at a `Minus` node retyped, given a third child and retyped
again. -/
theorem binop_children_after_operations_witness :
    (BinOp.new .Minus (some (IntegerValue.new 1)) (some (CharValue.new 'x'))).bind
        (fun b0 => BinOp.run b0
          [.set_type_kind .INTEGER, .add (some (IntegerValue.new 3)), .set_type none])
      = some (.mk .Minus none
          [some (IntegerValue.new 1), some (CharValue.new 'x'), some (IntegerValue.new 3)])
    ∧ get_children (.expr (.BinOp (.mk .Minus none
          [some (IntegerValue.new 1), some (CharValue.new 'x'), some (IntegerValue.new 3)])))
        = [some (.expr (IntegerValue.new 1)), some (.expr (CharValue.new 'x'))]
            ++ (BinOp.added [.set_type_kind .INTEGER, .add (some (IntegerValue.new 3)),
                .set_type none]).map Expr.up :=
  ⟨rfl, (binop_children_after_operations .Minus (IntegerValue.new 1) (CharValue.new 'x')
    [.set_type_kind .INTEGER, .add (some (IntegerValue.new 3)), .set_type none] _ rfl).2.2.1⟩

/-- A node is free of null pointers when its slot is and each of its children
points at a node that is. -/
theorem NoNull.of_children (n : Node) (hslot : type_slot n ≠ some none)
    (hall : ∀ p ∈ get_children n, ∃ c, p = some c ∧ NoNull c) : NoNull n := by
  refine .intro n hslot (fun hmem => ?_) (fun c hc => ?_)
  · obtain ⟨c, hc, _⟩ := hall none hmem
    cases hc
  · obtain ⟨c1, hc1, hn⟩ := hall (some c) hc
    cases hc1
    exact hn

/-- What being free of null pointers says of the node itself. -/
theorem NoNull.all {n : Node} (h : NoNull n) :
    type_slot n ≠ some none
      ∧ ∀ p ∈ get_children n, ∃ c, p = some c ∧ NoNull c := by
  cases h with
  | intro _ hslot hnn hch =>
    refine ⟨hslot, fun p hp => ?_⟩
    cases p with
    | none => exact absurd hp hnn
    | some c => exact ⟨c, rfl, hch c hp⟩

/-- Without a null type slot `write_data_repr` has a result. -/
theorem write_data_repr_isSome (ins : Inserters) (n : Node)
    (hslot : type_slot n ≠ some none) :
    ∃ data, write_data_repr ins n "" = some data := by
  cases n with
  | TypedNode type =>
    cases type with
    | none => exact absurd rfl hslot
    | some t => exact ⟨_, rfl⟩
  | expr e =>
    cases e with
    | BinOp b =>
      obtain ⟨cls, type, children⟩ := b
      cases type with
      | none => exact absurd rfl hslot
      | some t => exact ⟨_, rfl⟩
    | Expr type =>
      cases type with
      | none => exact absurd rfl hslot
      | some t => exact ⟨_, rfl⟩
    | Value type =>
      cases type with
      | none => exact absurd rfl hslot
      | some t => exact ⟨_, rfl⟩
    | IntegerValue type value =>
      cases type with
      | none => exact absurd rfl hslot
      | some t => exact ⟨_, rfl⟩
    | FloatingValue type value =>
      cases type with
      | none => exact absurd rfl hslot
      | some t => exact ⟨_, rfl⟩
    | CharValue type value =>
      cases type with
      | none => exact absurd rfl hslot
      | some t => exact ⟨_, rfl⟩
    | StringValue type value =>
      cases type with
      | none => exact absurd rfl hslot
      | some t => exact ⟨_, rfl⟩
    | Variable type ref =>
      cases type with
      | none => exact absurd rfl hslot
      | some t => exact ⟨_, rfl⟩
    | UnOp cls type child =>
      cases type with
      | none => exact absurd rfl hslot
      | some t => exact ⟨_, rfl⟩
    | Call type left right =>
      cases type with
      | none => exact absurd rfl hslot
      | some t => exact ⟨_, rfl⟩
  | stmt st =>
    cases st with
    | Block b =>
      obtain ⟨scope_id, children⟩ := b
      cases scope_id <;> exact ⟨_, rfl⟩
    | _ => exact ⟨_, rfl⟩
  | Node => exact ⟨_, rfl⟩
  | exprs es => exact ⟨_, rfl⟩
  | decl d => exact ⟨_, rfl⟩
  | program p => exact ⟨_, rfl⟩

/-- Children that all have a dump have their dumps collected. -/
theorem children_dumps_isSome (ins : Inserters) (children : List (Ptr Node))
    (hall : ∀ p ∈ children, ∃ c, p = some c ∧ ∃ d, dump ins c = some d) :
    ∃ dumps, children_dumps ins children = some dumps := by
  induction children with
  | nil => exact ⟨[], rfl⟩
  | cons p rest ih =>
    obtain ⟨c, hc, d, hd⟩ := hall p (List.mem_cons_self _ _)
    obtain ⟨ds, hds⟩ := ih (fun q hq => hall q (List.mem_cons_of_mem _ hq))
    subst hc
    exact ⟨d :: ds, by simp [children_dumps, hd, hds]⟩

/-- A tree free of null pointers has a dump. -/
theorem NoNull.dump_isSome (ins : Inserters) {n : Node} (h : NoNull n) :
    ∃ d, dump ins n = some d := by
  induction h with
  | intro n hslot hnn _ ih =>
    obtain ⟨data, hdata⟩ := write_data_repr_isSome ins n hslot
    obtain ⟨dumps, hdumps⟩ := children_dumps_isSome ins (get_children n)
      (fun p hp => by
        cases p with
        | none => exact absurd hp hnn
        | some c => exact ⟨c, rfl, ih c hp⟩)
    rw [dump_eq, hdata, hdumps]
    exact ⟨_, rfl⟩

/-- A tree free of null pointers has no null child. -/
theorem NoNull.noNullChild {n : Node} (h : NoNull n) : NoNullChild n := by
  induction h with
  | intro n _ hnn _ ih => exact .intro n hnn ih

/-- The dump of a node with exactly two non-null children and no data. -/
theorem dump_two_children (ins : Inserters) (n c1 c2 : Node)
    (hd : write_data_repr ins n "" = some "")
    (hc : get_children n = [some c1, some c2]) :
    dump ins n =
      match dump ins c1, dump ins c2 with
      | some d1, some d2 =>
          some ("(" ++ get_label n ++ " " ++ d1 ++ " " ++ d2 ++ ")")
      | _, _ => none := by
  rw [dump_eq ins n, hd, hc]
  simp only [children_dumps, Option.some_bind]
  cases dump ins c1 <;> cases dump ins c2 <;>
    simp [join_cons, String.join, String.append_assoc]

/-- C7: `IfStmt`, `WhileStmt` and `DoWhileStmt` built from a non-null condition
`c` and a non-null body `s` have exactly the two children `[c, s]`, condition
first; their dump is the bracketed label followed by a blank and the dump of
the condition, a blank and the dump of the body, and it is produced whenever
no pointer under `c` and `s` is null (there is none where one of the two has
no dump). -/
theorem conditional_statements_children_and_dump (ins : Inserters) (c : Expr)
    (s : Statement) :
    (∃ st, IfStmt.new (some c) (some s) = some st
      ∧ get_children (.stmt st) = [some (.expr c), some (.stmt s)]
      ∧ dump ins (.stmt st) =
          match dump ins (.expr c), dump ins (.stmt s) with
          | some dc, some ds => some ("(" ++ "IfStmt" ++ " " ++ dc ++ " " ++ ds ++ ")")
          | _, _ => none)
    ∧ (∃ st, WhileStmt.new (some c) (some s) = some st
      ∧ get_children (.stmt st) = [some (.expr c), some (.stmt s)]
      ∧ dump ins (.stmt st) =
          match dump ins (.expr c), dump ins (.stmt s) with
          | some dc, some ds => some ("(" ++ "WhileStmt" ++ " " ++ dc ++ " " ++ ds ++ ")")
          | _, _ => none)
    ∧ (∃ st, DoWhileStmt.new (some c) (some s) = some st
      ∧ get_children (.stmt st) = [some (.expr c), some (.stmt s)]
      ∧ dump ins (.stmt st) =
          match dump ins (.expr c), dump ins (.stmt s) with
          | some dc, some ds => some ("(" ++ "DoWhileStmt" ++ " " ++ dc ++ " " ++ ds ++ ")")
          | _, _ => none)
    ∧ (NoNull (.expr c) → NoNull (.stmt s) →
        ∃ dc ds, dump ins (.expr c) = some dc ∧ dump ins (.stmt s) = some ds
          ∧ dump ins (.stmt (.IfStmt (some c) (some s)))
              = some ("(" ++ "IfStmt" ++ " " ++ dc ++ " " ++ ds ++ ")")
          ∧ dump ins (.stmt (.WhileStmt (some c) (some s)))
              = some ("(" ++ "WhileStmt" ++ " " ++ dc ++ " " ++ ds ++ ")")
          ∧ dump ins (.stmt (.DoWhileStmt (some c) (some s)))
              = some ("(" ++ "DoWhileStmt" ++ " " ++ dc ++ " " ++ ds ++ ")")) := by
  refine ⟨⟨_, rfl, rfl, dump_two_children ins _ _ _ rfl rfl⟩,
    ⟨_, rfl, rfl, dump_two_children ins _ _ _ rfl rfl⟩,
    ⟨_, rfl, rfl, dump_two_children ins _ _ _ rfl rfl⟩, fun hc hs => ?_⟩
  obtain ⟨dc, hdc⟩ := hc.dump_isSome ins
  obtain ⟨ds, hds⟩ := hs.dump_isSome ins
  refine ⟨dc, ds, hdc, hds, ?_, ?_, ?_⟩
  · rw [dump_two_children ins (.stmt (.IfStmt (some c) (some s))) (.expr c) (.stmt s)
      rfl rfl, hdc, hds]
    rfl
  · rw [dump_two_children ins (.stmt (.WhileStmt (some c) (some s))) (.expr c) (.stmt s)
      rfl rfl, hdc, hds]
    rfl
  · rw [dump_two_children ins (.stmt (.DoWhileStmt (some c) (some s))) (.expr c) (.stmt s)
      rfl rfl, hdc, hds]
    rfl

/-- C7 at the condition `1` and a bare `Statement` as body: the three dumps are
produced, character for character. -/
theorem conditional_statements_children_and_dump_witness :
    NoNull (.expr (IntegerValue.new 1))
    ∧ NoNull (.stmt .Statement)
    ∧ dump Inserters.sample (.expr (IntegerValue.new 1))
        = some "(Integer \"[INTEGER]\" 1)"
    ∧ dump Inserters.sample (.stmt .Statement) = some "(Statement)"
    ∧ dump Inserters.sample (.stmt (.IfStmt (some (IntegerValue.new 1)) (some .Statement)))
        = some "(IfStmt (Integer \"[INTEGER]\" 1) (Statement))"
    ∧ dump Inserters.sample (.stmt (.WhileStmt (some (IntegerValue.new 1)) (some .Statement)))
        = some "(WhileStmt (Integer \"[INTEGER]\" 1) (Statement))"
    ∧ dump Inserters.sample (.stmt (.DoWhileStmt (some (IntegerValue.new 1)) (some .Statement)))
        = some "(DoWhileStmt (Integer \"[INTEGER]\" 1) (Statement))" := by
  have hc : NoNull (.expr (IntegerValue.new 1)) :=
    .of_children _ (by simp [type_slot, IntegerValue.new, Expr.get_type])
      (by simp [get_children, IntegerValue.new])
  have hs : NoNull (.stmt .Statement) :=
    .of_children _ (by simp [type_slot]) (by simp [get_children])
  have e1 : dump Inserters.sample (.expr (IntegerValue.new 1))
      = some "(Integer \"[INTEGER]\" 1)" := by
    rw [dump_eq]
    rfl
  have e2 : dump Inserters.sample (.stmt .Statement) = some "(Statement)" := by
    rw [dump_eq]
    rfl
  obtain ⟨dc, ds, hdc, hds, hif, hwhile, hdo⟩ :=
    (conditional_statements_children_and_dump Inserters.sample (IntegerValue.new 1)
      .Statement).2.2.2 hc hs
  rw [e1] at hdc
  rw [e2] at hds
  cases hdc
  cases hds
  exact ⟨hc, hs, e1, e2, hif, hwhile, hdo⟩

/-- C8: `Call` built from a non-null callee `f` and a non-null argument list
node `args` has exactly the two children `[f, args]`, callee first, whatever
`args` holds; the arguments are the children of `args`. -/
theorem call_children (f : Expr) (arguments : List (Ptr Expr)) :
    ∃ call, Call.new (some f) (some (Exprs.mk arguments)) = some call
      ∧ get_children (.expr call)
          = [some (.expr f), some (.exprs (Exprs.mk arguments))]
      ∧ (get_children (.expr call)).length = 2
      ∧ get_children (.exprs (Exprs.mk arguments)) = arguments.map Expr.up :=
  ⟨_, rfl, rfl, rfl, rfl⟩

/-- Adding non-null children one after the other with an `add` that appends:
the children seen through `view` grow by the added ones, in order. -/
theorem foldlM_add_append {S T X : Type} (add : S → Ptr T → Option S)
    (view : S → List X) (inj : T → X)
    (hadd : ∀ s (c : T), ∃ s1, add s (some c) = some s1
      ∧ view s1 = view s ++ [inj c]) (cs : List T) :
    ∀ s, ∃ s1, (cs.map some).foldlM add s = some s1
      ∧ view s1 = view s ++ cs.map inj := by
  induction cs with
  | nil => intro s; exact ⟨s, rfl, by simp⟩
  | cons c cs ih =>
    intro s
    obtain ⟨s1, h1, hc1⟩ := hadd s c
    obtain ⟨s2, h2, hc2⟩ := ih s1
    refine ⟨s2, ?_, ?_⟩
    · simp only [List.map_cons, List.foldlM_cons, h1, Option.bind_eq_bind,
        Option.some_bind]
      exact h2
    · rw [hc2, hc1]; simp

/-- C9: adding non-null declarations `d1 .. dn` in that order to a `Program`
appends them, in that order, after the children it already has, which are kept
as they were; from an empty `Program` the children are exactly `[d1, .., dn]`.
The same holds for `Exprs.add` over expressions and for `Block.add` over
non-null statements. -/
theorem add_appends_in_insertion_order :
    (∀ (p : Program) (ds : List Declaration),
      ∃ p1, (ds.map some).foldlM Program.add p = some p1
        ∧ get_children (.program p1)
            = get_children (.program p) ++ ds.map fun d => some (.decl d))
    ∧ (∀ ds : List Declaration,
      ∃ p1, (ds.map some).foldlM Program.add Program.new = some p1
        ∧ get_children (.program p1) = ds.map fun d => some (.decl d))
    ∧ (∀ (es : Exprs) (xs : List Expr),
      ∃ es1, (xs.map some).foldlM Exprs.add es = some es1
        ∧ get_children (.exprs es1)
            = get_children (.exprs es) ++ xs.map fun x => some (.expr x))
    ∧ (∀ xs : List Expr,
      ∃ es1, (xs.map some).foldlM Exprs.add Exprs.new = some es1
        ∧ get_children (.exprs es1) = xs.map fun x => some (.expr x))
    ∧ (∀ (b : Block) (ss : List Statement),
      ∃ b1, (ss.map some).foldlM Block.add b = some b1
        ∧ get_children (.stmt (.Block b1))
            = get_children (.stmt (.Block b)) ++ ss.map fun s => some (.stmt s))
    ∧ (∀ ss : List Statement,
      ∃ b1, (ss.map some).foldlM Block.add Block.new = some b1
        ∧ get_children (.stmt (.Block b1)) = ss.map fun s => some (.stmt s)) := by
  have hP : ∀ (p : Program) (ds : List Declaration),
      ∃ p1, (ds.map some).foldlM Program.add p = some p1
        ∧ get_children (.program p1)
            = get_children (.program p) ++ ds.map fun d => some (.decl d) :=
    fun p ds => foldlM_add_append Program.add (fun p => get_children (.program p))
      (fun d => some (.decl d))
      (fun s c => by
        obtain ⟨cs⟩ := s
        exact ⟨_, rfl, by simp [get_children, Declaration.up]⟩) ds p
  have hE : ∀ (es : Exprs) (xs : List Expr),
      ∃ es1, (xs.map some).foldlM Exprs.add es = some es1
        ∧ get_children (.exprs es1)
            = get_children (.exprs es) ++ xs.map fun x => some (.expr x) :=
    fun es xs => foldlM_add_append Exprs.add (fun p => get_children (.exprs p))
      (fun x => some (.expr x))
      (fun s c => by
        obtain ⟨cs⟩ := s
        exact ⟨_, rfl, by simp [get_children, Expr.up]⟩) xs es
  have hB : ∀ (b : Block) (ss : List Statement),
      ∃ b1, (ss.map some).foldlM Block.add b = some b1
        ∧ get_children (.stmt (.Block b1))
            = get_children (.stmt (.Block b)) ++ ss.map fun s => some (.stmt s) :=
    fun b ss => foldlM_add_append Block.add
      (fun p => get_children (.stmt (.Block p))) (fun s => some (.stmt s))
      (fun s c => by
        obtain ⟨sc, cs⟩ := s
        exact ⟨_, rfl, by simp [get_children, Statement.up]⟩) ss b
  refine ⟨hP, fun ds => ?_, hE, fun xs => ?_, hB, fun ss => ?_⟩
  · simpa [get_children, Program.new] using hP Program.new ds
  · simpa [get_children, Exprs.new] using hE Exprs.new xs
  · simpa [get_children, Block.new] using hB Block.new ss

/-- C10 as stated fails: `add` with a null statement on a `Block` does not
abort; it returns normally and the block is what it was. -/
theorem block_add_null_counterexample :
    Block.add Block.new none = some Block.new
    ∧ ¬ (∀ b : Block, Block.add b none = none) := by
  refine ⟨rfl, fun h => ?_⟩
  have := h Block.new
  simp [Block.add, Block.new] at this

/-- C10, amended: building a unary operator, a binary operator, a `Call`, an
`IfStmt`, a `WhileStmt`, a `DoWhileStmt`, an `ExpressionStmt` or a
`FunctionDefinition` aborts exactly when one of the children given is null, and
`add` on an `Exprs`, a `Program` or a binary operator aborts exactly when the
child is null; `Block.add` never aborts: a null statement is ignored, the block
staying as it was, and a non-null one is appended. -/
theorem null_child_aborts_except_block_add :
    (∀ cls child, UnOp.new cls child = none ↔ child = none)
    ∧ (∀ cls left right, BinOp.new cls left right = none ↔ left = none ∨ right = none)
    ∧ (∀ left right, Call.new left right = none ↔ left = none ∨ right = none)
    ∧ (∀ expr stmt, IfStmt.new expr stmt = none ↔ expr = none ∨ stmt = none)
    ∧ (∀ expr stmt, WhileStmt.new expr stmt = none ↔ expr = none ∨ stmt = none)
    ∧ (∀ expr stmt, DoWhileStmt.new expr stmt = none ↔ expr = none ∨ stmt = none)
    ∧ (∀ child, ExpressionStmt.new child = none ↔ child = none)
    ∧ (∀ body, FunctionDefinition.new body = none ↔ body = none)
    ∧ (∀ es child, Exprs.add es child = none ↔ child = none)
    ∧ (∀ p decl, Program.add p decl = none ↔ decl = none)
    ∧ (∀ b child, BinOp.add b child = none ↔ child = none)
    ∧ (∀ b : Block, Block.add b none = some b)
    ∧ (∀ (scope_id : Option ScopeId) (children : List (Ptr Statement)) (s : Statement),
        Block.add (.mk scope_id children) (some s)
          = some (.mk scope_id (children ++ [some s]))) := by
  refine ⟨?_, ?_, ?_, ?_, ?_, ?_, ?_, ?_, ?_, ?_, ?_, ?_, ?_⟩
  · intro cls child; cases child <;> simp [UnOp.new]
  · intro cls left right; cases left <;> cases right <;> simp [BinOp.new]
  · intro left right; cases left <;> cases right <;> simp [Call.new]
  · intro expr stmt; cases expr <;> cases stmt <;> simp [IfStmt.new]
  · intro expr stmt; cases expr <;> cases stmt <;> simp [WhileStmt.new]
  · intro expr stmt; cases expr <;> cases stmt <;> simp [DoWhileStmt.new]
  · intro child; cases child <;> simp [ExpressionStmt.new]
  · intro body; cases body <;> simp [FunctionDefinition.new]
  · intro es child; cases es; cases child <;> simp [Exprs.add, MultiChildrenBase.add]
  · intro p decl; cases p; cases decl <;> simp [Program.add]
  · intro b child; cases b; cases child <;> simp [BinOp.add, MultiChildrenBase.add]
  · intro b; cases b; rfl
  · intro scope_id children s; rfl

end ast

namespace ast

open types

/-- Reading a text that keeps its brackets in quotes changes nothing but the
text of the child being read, if any. -/
theorem scan_plain (h : List Char) :
    ∀ (q : Bool) (st : Scan), plain q h = true → st.closed = false → st.quoted = q →
      h.foldlM Scan.step st = some { st with
        quoted := false
        current := if st.depth = 0 then st.current else st.current ++ h } := by
  induction h with
  | nil =>
    intro q st hp hc hq
    obtain ⟨depth, quoted, current, children, closed⟩ := st
    simp only [plain, Bool.not_eq_true'] at hp
    simp only at hc hq
    subst hc hq hp
    simp
  | cons c cs ih =>
    intro q st hp hc hq
    obtain ⟨depth, quoted, current, children, closed⟩ := st
    simp only at hc hq
    subst hc hq
    rw [List.foldlM_cons]
    cases quoted with
    | true =>
      simp only [plain] at hp
      have := ih (c != '"') ⟨depth, c != '"', if depth = 0 then current else current ++ [c],
        children, false⟩ hp rfl rfl
      simp only [Scan.step, Bool.false_eq_true, if_false, if_true, Option.bind_eq_bind,
        Option.some_bind, this]
      by_cases hd : depth = 0 <;> simp [hd]
    | false =>
      simp only [plain, Bool.and_eq_true, bne_iff_ne, ne_eq] at hp
      obtain ⟨⟨h1, h2⟩, h3⟩ := hp
      by_cases hq : c = '"'
      · subst hq
        have := ih true ⟨depth, true, if depth = 0 then current else current ++ ['"'],
          children, false⟩ (by simpa using h3) rfl rfl
        simp only [Scan.step, Bool.false_eq_true, if_false, if_true, Option.bind_eq_bind,
          Option.some_bind, this]
        by_cases hd : depth = 0 <;> simp [hd]
      · have hb : (c == '"') = false := by simpa using hq
        rw [hb] at h3
        have := ih false ⟨depth, false, if depth = 0 then current else current ++ [c],
          children, false⟩ h3 rfl rfl
        simp only [Scan.step, Bool.false_eq_true, if_false, hq, h1, h2, Option.bind_eq_bind,
          Option.some_bind, this]
        by_cases hd : depth = 0 <;> simp [hd]

/-- A text that keeps its brackets in quotes is read through inside a child. -/
theorem Nested.of_plain (h : List Char) (hp : plain false h = true) : Nested h := by
  intro st hc hq hd
  rw [scan_plain h false st hp hc hq]
  obtain ⟨depth, quoted, current, children, closed⟩ := st
  simp only at hc hq hd
  subst hq
  have : depth ≠ 0 := by omega
  simp [this]

/-- Two texts read through inside a child, one after the other. -/
theorem Nested.append {a b : List Char} (ha : Nested a) (hb : Nested b) :
    Nested (a ++ b) := by
  intro st hc hq hd
  rw [List.foldlM_append, ha st hc hq hd]
  simp only [Option.bind_eq_bind, Option.some_bind]
  rw [hb ⟨st.depth, st.quoted, st.current ++ a, st.children, st.closed⟩ hc hq hd]
  simp

/-- A bracketed text is read through inside a child when its inside is. -/
theorem Nested.bracket {body : List Char} (hb : Nested body) :
    Nested ('(' :: (body ++ [')'])) := by
  intro st hc hq hd
  obtain ⟨depth, quoted, current, children, closed⟩ := st
  simp only at hc hq hd
  subst hc hq
  obtain ⟨k, rfl⟩ : ∃ k, depth = k + 1 := ⟨depth - 1, by omega⟩
  rw [List.foldlM_cons]
  simp only [Scan.step, Bool.false_eq_true, if_false, Char.reduceEq, if_true,
    Option.bind_eq_bind, Option.some_bind]
  rw [List.foldlM_append, hb _ rfl rfl (by simp)]
  simp [Scan.step]

/-- A bracketed text met at depth zero is read as one more child. -/
theorem scan_child {body : List Char} (hb : Nested body) (children : List (List Char)) :
    ('(' :: (body ++ [')'])).foldlM Scan.step ⟨0, false, [], children, false⟩
      = some ⟨0, false, [], children ++ ['(' :: (body ++ [')'])], false⟩ := by
  rw [List.foldlM_cons]
  simp only [Scan.step, Bool.false_eq_true, if_false, Char.reduceEq, if_true,
    Option.bind_eq_bind, Option.some_bind]
  rw [List.foldlM_append, hb _ rfl rfl (by simp)]
  simp [Scan.step]

/-- The texts of the children of a node, each after a blank, met at depth zero
are read as that many more children. -/
theorem scan_children (ds : List (List Char))
    (hds : ∀ d ∈ ds, ∃ body, d = '(' :: (body ++ [')']) ∧ Nested body) :
    ∀ children : List (List Char),
      (ds.map fun d => ' ' :: d).flatten.foldlM Scan.step ⟨0, false, [], children, false⟩
        = some ⟨0, false, [], children ++ ds, false⟩ := by
  induction ds with
  | nil => intro children; simp
  | cons d ds ih =>
    intro children
    obtain ⟨body, rfl, hb⟩ := hds d (List.mem_cons_self _ _)
    have ih := ih (fun x hx => hds x (List.mem_cons_of_mem _ hx))
    have hblank : [' '].foldlM Scan.step ⟨0, false, [], children, false⟩
        = some ⟨0, false, [], children, false⟩ := by
      simp [Scan.step]
    have hsplit : (List.map (fun d => ' ' :: d) (('(' :: (body ++ [')'])) :: ds)).flatten
        = ([' '] ++ ('(' :: (body ++ [')'])))
            ++ (List.map (fun d => ' ' :: d) ds).flatten := by
      simp
    rw [hsplit, List.foldlM_append, List.foldlM_append, hblank]
    simp only [Option.bind_eq_bind, Option.some_bind]
    rw [scan_child hb children]
    simp only [Option.some_bind]
    rw [ih]
    simp

/-- The texts of children, each after a blank, are read through inside a
child. -/
theorem Nested.children (ds : List (List Char))
    (hds : ∀ d ∈ ds, ∃ body, d = '(' :: (body ++ [')']) ∧ Nested body) :
    Nested (ds.map fun d => ' ' :: d).flatten := by
  induction ds with
  | nil => exact Nested.of_plain [] rfl
  | cons d ds ih =>
    obtain ⟨body, rfl, hb⟩ := hds d (List.mem_cons_self _ _)
    have ih := ih (fun x hx => hds x (List.mem_cons_of_mem _ hx))
    simp only [List.map_cons, List.flatten_cons]
    exact ((Nested.of_plain [' '] rfl).append hb.bracket).append ih

/-- Every label of `ast.hpp` is fit to be a label. -/
theorem get_label_label_like (n : Node) :
    label_like false (get_label n).toList = true := by
  cases n with
  | Node => rfl
  | TypedNode type => rfl
  | expr e =>
    cases e with
    | UnOp cls type child => cases cls <;> rfl
    | BinOp b =>
      obtain ⟨cls, type, children⟩ := b
      cases cls <;> rfl
    | _ => rfl
  | exprs es => rfl
  | stmt st => cases st <;> rfl
  | decl d => cases d <;> rfl
  | program p => rfl

/-- A label keeps its brackets in quotes. -/
theorem plain_of_label_like (l : List Char) :
    ∀ q, label_like q l = true → plain q l = true := by
  induction l with
  | nil => intro q h; simpa [label_like, plain] using h
  | cons c cs ih =>
    intro q h
    cases q with
    | true => exact ih _ (by simpa [label_like] using h)
    | false =>
      simp only [label_like, Bool.and_eq_true] at h
      simp only [plain, Bool.and_eq_true]
      exact ⟨⟨h.1.1.2, h.1.2⟩, ih _ h.2⟩

/-- Two texts that keep their brackets in quotes, one after the other. -/
theorem plain_append (a b : List Char) (hb : plain false b = true) :
    ∀ q, plain q a = true → plain q (a ++ b) = true := by
  induction a with
  | nil =>
    intro q h
    cases q with
    | true => simp [plain] at h
    | false => simpa using hb
  | cons c cs ih =>
    intro q h
    cases q with
    | true => exact ih _ (by simpa [plain] using h)
    | false =>
      simp only [plain, Bool.and_eq_true] at h
      simp only [List.cons_append, plain, Bool.and_eq_true]
      exact ⟨h.1, ih _ h.2⟩

/-- The label is read back from the head of a text in which a blank or a
bracket follows it. -/
theorem read_label_append (l rest : List Char)
    (hrest : rest = [] ∨ ∃ c t, rest = c :: t ∧ (c = ' ' ∨ c = '(' ∨ c = ')')) :
    ∀ q, label_like q l = true → read_label q (l ++ rest) = l := by
  induction l with
  | nil =>
    intro q h
    cases q with
    | true => simp [label_like] at h
    | false =>
      rcases hrest with rfl | ⟨c, t, rfl, hc⟩
      · rfl
      · simp [read_label, hc]
  | cons c cs ih =>
    intro q h
    cases q with
    | true =>
      simp only [label_like] at h
      simp [read_label, ih _ h]
    | false =>
      simp only [label_like, Bool.and_eq_true, bne_iff_ne, ne_eq] at h
      obtain ⟨⟨⟨h1, h2⟩, h3⟩, h4⟩ := h
      simp [read_label, h1, h2, h3, ih _ h4]

/-- The data of a node is empty or starts with a blank. -/
theorem write_data_repr_head (ins : Inserters) (n : Node) (data : String)
    (h : write_data_repr ins n "" = some data) :
    data.toList = [] ∨ ∃ t, data.toList = ' ' :: t := by
  have htyped : ∀ (type : Ptr Type_) (data : String),
      TypedNode.write_data_repr ins type "" = some data →
      ∃ t, data.toList = ' ' :: t := by
    intro type data h
    cases type with
    | none => simp [TypedNode.write_data_repr] at h
    | some ty =>
      simp only [TypedNode.write_data_repr, Option.some.injEq] at h
      subst h
      exact ⟨_, by simp [String.toList, String.data_append]; rfl⟩
  have hvalue : ∀ (type : Ptr Type_) (shown data : String),
      BaseValue.write_data_repr ins type shown "" = some data →
      ∃ t, data.toList = ' ' :: t := by
    intro type shown data h
    cases type with
    | none => simp [BaseValue.write_data_repr, TypedNode.write_data_repr] at h
    | some ty =>
      simp only [BaseValue.write_data_repr, TypedNode.write_data_repr,
        Option.some.injEq] at h
      subst h
      exact ⟨_, by simp [String.toList, String.data_append]; rfl⟩
  cases n with
  | Node => left; simp only [write_data_repr, Option.some.injEq] at h; subst h; rfl
  | TypedNode type => exact .inr (htyped type data h)
  | expr e =>
    right
    cases e with
    | BinOp b =>
      obtain ⟨cls, type, children⟩ := b
      exact htyped type data h
    | Variable type ref =>
      cases type with
      | none => simp [write_data_repr, Variable.write_data_repr,
          TypedNode.write_data_repr] at h
      | some ty =>
        simp only [write_data_repr, Variable.write_data_repr,
          TypedNode.write_data_repr, Option.some.injEq] at h
        subst h
        exact ⟨_, by simp [String.toList, String.data_append]; rfl⟩
    | IntegerValue type value => exact hvalue type _ data h
    | FloatingValue type value => exact hvalue type _ data h
    | CharValue type value => exact hvalue type _ data h
    | StringValue type value => exact hvalue type _ data h
    | Expr type => exact htyped type data h
    | Value type => exact htyped type data h
    | UnOp cls type child => exact htyped type data h
    | Call type left right => exact htyped type data h
  | exprs es => left; simp only [write_data_repr, Option.some.injEq] at h; subst h; rfl
  | stmt st =>
    cases st with
    | Block b =>
      obtain ⟨scope_id, children⟩ := b
      cases scope_id with
      | none =>
        left
        simp only [write_data_repr, Block.write_data_repr, Option.some.injEq] at h
        subst h; rfl
      | some id =>
        right
        simp only [write_data_repr, Block.write_data_repr, Option.some.injEq] at h
        subst h
        exact ⟨_, by simp [String.toList, String.data_append]; rfl⟩
    | _ => left; simp only [write_data_repr, Option.some.injEq] at h; subst h; rfl
  | decl d => left; simp only [write_data_repr, Option.some.injEq] at h; subst h; rfl
  | program p => left; simp only [write_data_repr, Option.some.injEq] at h; subst h; rfl

/-- The text of the dump of a node that has data and children with dumps. -/
theorem dump_toList (ins : Inserters) (n : Node) (data : String) (dumps : List String)
    (hd : write_data_repr ins n "" = some data)
    (hc : children_dumps ins (get_children n) = some dumps) :
    ∃ d, dump ins n = some d
      ∧ d.toList = '(' :: (((get_label n).toList ++ data.toList
          ++ (dumps.map fun x => ' ' :: x.toList).flatten) ++ [')']) := by
  refine ⟨_, by rw [dump_eq, hd, hc], ?_⟩
  simp [String.toList, String.data_append, String.data_join, List.map_map,
    Function.comp_def]

/-- The dumps of children that all have a bracketed dump. -/
theorem children_dumps_bracketed (ins : Inserters) (l : List (Ptr Node))
    (hnn : none ∉ l)
    (hall : ∀ c, some c ∈ l → ∃ d body, dump ins c = some d
      ∧ d.toList = '(' :: (body ++ [')']) ∧ Nested body) :
    ∃ dumps, children_dumps ins l = some dumps
      ∧ ∀ x ∈ dumps.map String.toList, ∃ body, x = '(' :: (body ++ [')']) ∧ Nested body := by
  induction l with
  | nil => exact ⟨[], rfl, by simp⟩
  | cons p rest ih =>
    obtain ⟨ds, hds, hb⟩ := ih (fun h => hnn (List.mem_cons_of_mem _ h))
      (fun c hc => hall c (List.mem_cons_of_mem _ hc))
    cases p with
    | none => exact absurd (List.mem_cons_self _ _) hnn
    | some c =>
      obtain ⟨d, body, hd, hdl, hbody⟩ := hall c (List.mem_cons_self _ _)
      refine ⟨d :: ds, by simp [children_dumps, hd, hds], ?_⟩
      intro x hx
      simp only [List.map_cons, List.mem_cons] at hx
      rcases hx with rfl | hx
      · exact ⟨body, hdl, hbody⟩
      · exact hb x hx

/-- The dump of a readable tree is a bracketed text whose inside a reader goes
through keeping its depth. -/
theorem Readable.bracketed (ins : Inserters) {n : Node} (h : Readable ins n) :
    ∃ (d data : String) (dumps : List String),
      dump ins n = some d
      ∧ write_data_repr ins n "" = some data
      ∧ plain false data.toList = true
      ∧ children_dumps ins (get_children n) = some dumps
      ∧ (∀ x ∈ dumps.map String.toList, ∃ body, x = '(' :: (body ++ [')']) ∧ Nested body)
      ∧ d.toList = '(' :: (((get_label n).toList ++ data.toList
          ++ (dumps.map fun x => ' ' :: x.toList).flatten) ++ [')'])
      ∧ Nested ((get_label n).toList ++ data.toList
          ++ (dumps.map fun x => ' ' :: x.toList).flatten) := by
  induction h with
  | intro n data hdata hplain hnn _ ih =>
    obtain ⟨dumps, hdumps, hb⟩ := children_dumps_bracketed ins (get_children n) hnn
      (fun c hc => by
        obtain ⟨d, data, dumps, hd, _, _, _, _, hdl, hnest⟩ := ih c hc
        exact ⟨d, _, hd, hdl, hnest⟩)
    obtain ⟨d, hd, hdl⟩ := dump_toList ins n data dumps hdata hdumps
    refine ⟨d, data, dumps, hd, hdata, hplain, hdumps, hb, hdl, ?_⟩
    have hhead : plain false ((get_label n).toList ++ data.toList) = true :=
      plain_append _ _ hplain false
        (plain_of_label_like _ false (get_label_label_like n))
    have hch := Nested.children (dumps.map String.toList) hb
    rw [List.map_map] at hch
    exact (Nested.of_plain _ hhead).append hch

/-- Reading back the dump of a readable tree gives the label of its root and
the dumps of the children of the root, in order. -/
theorem Readable.read_node (ins : Inserters) {n : Node} (h : Readable ins n) :
    ∃ (d : String) (dumps : List String),
      dump ins n = some d
      ∧ children_dumps ins (get_children n) = some dumps
      ∧ ast.read_node d = some (get_label n, dumps) := by
  obtain ⟨d, data, dumps, hd, hdata, hplain, hdumps, hb, hdl, _⟩ := h.bracketed ins
  refine ⟨d, dumps, hd, hdumps, ?_⟩
  have hhead : plain false ((get_label n).toList ++ data.toList) = true :=
    plain_append _ _ hplain false
      (plain_of_label_like _ false (get_label_label_like n))
  have hch := scan_children (dumps.map String.toList) hb []
  rw [List.map_map] at hch
  have hscan : (((get_label n).toList ++ data.toList
        ++ (dumps.map fun x => ' ' :: x.toList).flatten) ++ [')']).foldlM Scan.step
          ⟨0, false, [], [], false⟩
      = some ⟨0, false, [], dumps.map String.toList, true⟩ := by
    rw [List.foldlM_append, List.foldlM_append,
      scan_plain _ false ⟨0, false, [], [], false⟩ hhead rfl rfl]
    simp only [if_true, Option.bind_eq_bind, Option.some_bind]
    have hch1 : List.foldlM Scan.step ⟨0, false, [], [], false⟩
        (List.map (fun x => ' ' :: x.toList) dumps).flatten
          = some ⟨0, false, [], dumps.map String.toList, false⟩ := by
      simpa [Function.comp_def] using hch
    rw [hch1]
    simp [Scan.step]
  have hrest : (data.toList ++ (dumps.map fun x => ' ' :: x.toList).flatten ++ [')'] = []
      ∨ ∃ c t, data.toList ++ (dumps.map fun x => ' ' :: x.toList).flatten ++ [')']
          = c :: t ∧ (c = ' ' ∨ c = '(' ∨ c = ')')) := by
    right
    rcases write_data_repr_head ins n data hdata with h0 | ⟨t, ht⟩
    · rw [h0]
      cases dumps with
      | nil => exact ⟨')', [], rfl, by simp⟩
      | cons x xs => exact ⟨' ', _, rfl, by simp⟩
    · rw [ht]
      exact ⟨' ', _, rfl, by simp⟩
  have hlabel := read_label_append (get_label n).toList _ hrest false
    (get_label_label_like n)
  unfold ast.read_node
  rw [hdl]
  simp only [hscan, if_true]
  rw [show ((get_label n).toList ++ data.toList
      ++ (dumps.map fun x => ' ' :: x.toList).flatten) ++ [')']
        = (get_label n).toList ++ (data.toList
          ++ (dumps.map fun x => ' ' :: x.toList).flatten ++ [')']) by simp,
    hlabel]
  simp [String.toList, List.map_map, Function.comp_def]

/-- The shape of a node from its label and the shapes of its children. -/
theorem shape_eq (n : Node) :
    shape n = .node (get_label n) ((get_children n).map (Option.map shape)) := by
  rw [shape]
  have hmap : ∀ f : { x // x ∈ get_children n } → Option Shape,
      (∀ x, f x = Option.map shape x.1) →
      (get_children n).attach.map f = (get_children n).map (Option.map shape) := by
    intro f hf
    rw [← List.attach_map_coe (get_children n) (Option.map shape)]
    exact List.map_congr_left (fun x _ => hf x)
  rw [hmap _ (fun x => ?_)]
  obtain ⟨x, hx⟩ := x
  cases x <;> rfl

/-- The dump of a child is shorter than the children part it stands in. -/
theorem length_lt_flatten (x : String) (dumps : List String) (hx : x ∈ dumps) :
    x.length < ((dumps.map fun x => ' ' :: x.toList).flatten).length := by
  induction dumps with
  | nil => cases hx
  | cons y ys ih =>
    simp only [List.map_cons, List.flatten_cons, List.length_append, List.length_cons]
    rcases List.mem_cons.mp hx with rfl | h
    · have hlen : x.length = x.toList.length := rfl
      omega
    · have := ih h
      omega

/-- The dump of a child is shorter than the dump of its parent. -/
theorem length_lt_of_mem_dumps (d : String) (head : List Char) (dumps : List String)
    (hdl : d.toList = '(' :: ((head ++ (dumps.map fun x => ' ' :: x.toList).flatten)
      ++ [')'])) (x : String) (hx : x ∈ dumps) : x.length < d.length := by
  have hflat := length_lt_flatten x dumps hx
  have hlen : d.length = d.toList.length := rfl
  rw [hlen, hdl]
  simp only [List.length_cons, List.length_append, List.length_nil]
  omega

/-- Reading the dumps of the children back gives the shapes of the children. -/
theorem map_read_tree_children_dumps (ins : Inserters) (fuel : Nat) (l : List (Ptr Node)) :
    ∀ dumps, children_dumps ins l = some dumps →
      (∀ c, some c ∈ l → ∀ x, dump ins c = some x → x ∈ dumps →
        read_tree fuel x = some (shape c)) →
      dumps.map (read_tree fuel) = l.map (Option.map shape) := by
  induction l with
  | nil =>
    intro dumps h _
    simp only [children_dumps, Option.some.injEq] at h
    subst h
    rfl
  | cons p rest ih =>
    intro dumps h hall
    cases p with
    | none => simp [children_dumps] at h
    | some c =>
      simp only [children_dumps, Option.some_bind] at h
      cases hd : dump ins c with
      | none => simp [hd] at h
      | some x =>
        cases hr : children_dumps ins rest with
        | none => simp [hd, hr] at h
        | some xs =>
          simp only [hd, hr, Option.some.injEq] at h
          subst h
          have hx := hall c (List.mem_cons_self _ _) x hd (List.mem_cons_self _ _)
          have hrest := ih xs hr (fun c1 hc1 y hy hmem =>
            hall c1 (List.mem_cons_of_mem _ hc1) y hy (List.mem_cons_of_mem _ hmem))
          simp [hx, hrest]

/-- Reading the dump of a readable tree back, with enough depth allowed, gives
the shape of the tree. -/
theorem Readable.read_tree (ins : Inserters) {n : Node} (h : Readable ins n) :
    ∀ d, dump ins n = some d → ∀ fuel, d.length ≤ fuel →
      ast.read_tree fuel d = some (shape n) := by
  induction h with
  | intro n data hdata hplain hnn hch ih =>
    intro d hd fuel hfuel
    obtain ⟨d1, data1, dumps, hd1, hdata1, _, hdumps, _, hdl, _⟩ :=
      (Readable.intro n data hdata hplain hnn hch).bracketed ins
    obtain ⟨d2, dumps2, hd2, hdumps2, hread⟩ :=
      (Readable.intro n data hdata hplain hnn hch).read_node ins
    rw [hd] at hd1 hd2
    cases hd1
    cases hd2
    rw [hdumps] at hdumps2
    cases hdumps2
    have hpos : 0 < d.length := by
      have hlen : d.length = d.toList.length := rfl
      rw [hlen, hdl]
      simp
    obtain ⟨f, rfl⟩ : ∃ f, fuel = f + 1 := ⟨fuel - 1, by omega⟩
    have hmap := map_read_tree_children_dumps ins f (get_children n) dumps hdumps
      (fun c hc x hx hmem => ih c hc x hx f (by
        have := length_lt_of_mem_dumps d _ dumps hdl x hmem
        omega))
    rw [ast.read_tree, hread]
    simp only [hmap, shape_eq n]
    have hall : ((get_children n).map (Option.map shape)).all Option.isSome = true := by
      rw [List.all_eq_true]
      intro y hy
      obtain ⟨p, hp, rfl⟩ := List.mem_map.mp hy
      cases p with
      | none => exact absurd hp hnn
      | some c => rfl
    simp [hall]

/-- The dump of an `Exprs` holding variables of the fresh type VOID. -/
theorem dump_exprs_two_variables (ins : Inserters) (r1 r2 : sbtb.NameRef) :
    dump ins (.exprs (.mk [some (Variable.new r1), some (Variable.new r2)]))
      = some ("( (Var \"" ++ r1.get.name ++ "\" \"[" ++ ins.type (.PrimType .VOID)
          ++ "]\") (Var \"" ++ r2.get.name ++ "\" \"[" ++ ins.type (.PrimType .VOID)
          ++ "]\"))") := by
  simp only [dump_eq, get_children, List.map_cons, List.map_nil, Expr.up, Option.map_some',
    children_dumps, Option.some_bind, write_data_repr, Variable.new,
    Variable.write_data_repr, TypedNode.write_data_repr, TypedNode.type_init,
    Variable.get_name, get_label, join_cons, String.join, List.foldl_nil,
    Option.some.injEq]
  apply String.ext
  simp [String.data_append, List.append_assoc]

/-- The dump of an `Exprs` holding one variable of the fresh type VOID. -/
theorem dump_exprs_one_variable (ins : Inserters) (r : sbtb.NameRef) :
    dump ins (.exprs (.mk [some (Variable.new r)]))
      = some ("( (Var \"" ++ r.get.name ++ "\" \"[" ++ ins.type (.PrimType .VOID)
          ++ "]\"))") := by
  simp only [dump_eq, get_children, List.map_cons, List.map_nil, Expr.up, Option.map_some',
    children_dumps, Option.some_bind, write_data_repr, Variable.new,
    Variable.write_data_repr, TypedNode.write_data_repr, TypedNode.type_init,
    Variable.get_name, get_label, join_cons, String.join, List.foldl_nil,
    Option.some.injEq]
  apply String.ext
  simp [String.data_append, List.append_assoc]

/-- The shape of a node has as many children as `get_children` returns. -/
theorem shape_arity (n : Node) : (shape n).arity = (get_children n).length := by
  rw [shape_eq]
  simp [Shape.arity]

/-- C11 as stated fails: whatever the inserters, an `Exprs` holding the two
variables `x` and `y` and an `Exprs` holding one variable whose name spells the
end of the dump of `x` and the start of that of `y` have the same dump, with
two children and one child; so no reader of dumps recovers the number of
children, nor the shape. -/
theorem dump_round_trip_counterexample :
    dump Inserters.sample (.exprs (.mk [some (Variable.new ⟨⟨"x", .PrimType .INTEGER, none⟩⟩),
        some (Variable.new ⟨⟨"y", .PrimType .INTEGER, none⟩⟩)]))
      = some "( (Var \"x\" \"[VOID]\") (Var \"y\" \"[VOID]\"))"
    ∧ dump Inserters.sample (.exprs (.mk [some (Variable.new
        ⟨⟨"x\" \"[VOID]\") (Var \"y", .PrimType .INTEGER, none⟩⟩)]))
      = some "( (Var \"x\" \"[VOID]\") (Var \"y\" \"[VOID]\"))"
    ∧ (∀ ins : Inserters, ∃ (t1 t2 : Node) (d : String),
        dump ins t1 = some d ∧ dump ins t2 = some d
        ∧ (get_children t1).length = 2 ∧ (get_children t2).length = 1
        ∧ shape t1 ≠ shape t2)
    ∧ (∀ ins : Inserters, ¬ ∃ read : String → Option Shape,
        ∀ (t : Node) (d : String), dump ins t = some d → read d = some (shape t)) := by
  have hall : ∀ ins : Inserters, ∃ (t1 t2 : Node) (d : String),
      dump ins t1 = some d ∧ dump ins t2 = some d
      ∧ (get_children t1).length = 2 ∧ (get_children t2).length = 1
      ∧ shape t1 ≠ shape t2 := by
    intro ins
    refine ⟨.exprs (.mk [some (Variable.new ⟨⟨"x", .PrimType .INTEGER, none⟩⟩),
        some (Variable.new ⟨⟨"y", .PrimType .INTEGER, none⟩⟩)]),
      .exprs (.mk [some (Variable.new ⟨⟨"x\" \"[" ++ ins.type (.PrimType .VOID)
        ++ "]\") (Var \"y", .PrimType .INTEGER, none⟩⟩)]), _,
      dump_exprs_two_variables ins _ _, ?_, rfl, rfl, ?_⟩
    · rw [dump_exprs_one_variable]
      simp only [Option.some.injEq]
      apply String.ext
      simp [String.data_append, List.append_assoc]
    · intro h
      have := congrArg Shape.arity h
      simp [shape_arity, get_children] at this
  refine ⟨?_, ?_, hall, ?_⟩
  · rw [dump_exprs_two_variables]
    rfl
  · rw [dump_exprs_one_variable]
    rfl
  · intro ins hread
    obtain ⟨read, hread⟩ := hread
    obtain ⟨t1, t2, d, h1, h2, _, _, hne⟩ := hall ins
    have e1 := hread t1 d h1
    have e2 := hread t2 d h2
    rw [e1] at e2
    exact hne (Option.some.inj e2)

/-- The dumps of the children are as many as the children. -/
theorem children_dumps_length (ins : Inserters) (l : List (Ptr Node)) :
    ∀ dumps, children_dumps ins l = some dumps → dumps.length = l.length := by
  induction l with
  | nil =>
    intro dumps h
    simp only [children_dumps, Option.some.injEq] at h
    subst h
    rfl
  | cons p rest ih =>
    intro dumps h
    simp only [children_dumps] at h
    cases hp : p.bind (dump ins) with
    | none => simp [hp] at h
    | some x =>
      cases hr : children_dumps ins rest with
      | none => simp [hp, hr] at h
      | some xs =>
        simp only [hp, hr, Option.some.injEq] at h
        subst h
        simp [ih xs hr]

/-- C11, amended: the tree dump round-trips structurally for every tree that
has no null child and in which the data fragment of every node keeps its
brackets inside double quotes and closes every double quote it opens: reading
the dump back as a bracketed expression, quoted text skipped, recovers the
label of the node and the dumps of its children, as many as `get_children`
returns and in the same order, and, the children read in turn, the shape of
the whole tree; two such trees with equal dumps have the same shape; and the
dump of such an `IfStmt(cond, body)` is read back as a node labelled `IfStmt`
with exactly two children, the dump of the condition and then that of the
body. -/
theorem dump_round_trips_when_readable (ins : Inserters) :
    (∀ n : Node, Readable ins n →
      ∃ (d : String) (dumps : List String),
        dump ins n = some d
        ∧ children_dumps ins (get_children n) = some dumps
        ∧ dumps.length = (get_children n).length
        ∧ read_node d = some (get_label n, dumps)
        ∧ read_tree d.length d = some (shape n))
    ∧ (∀ (n1 n2 : Node) (d : String), Readable ins n1 → Readable ins n2 →
        dump ins n1 = some d → dump ins n2 = some d → shape n1 = shape n2)
    ∧ (∀ (c : Expr) (s : Statement),
        Readable ins (.stmt (.IfStmt (some c) (some s))) →
        ∃ d dc ds : String,
          dump ins (.stmt (.IfStmt (some c) (some s))) = some d
          ∧ dump ins (.expr c) = some dc
          ∧ dump ins (.stmt s) = some ds
          ∧ read_node d = some ("IfStmt", [dc, ds])) := by
  refine ⟨fun n h => ?_, fun n1 n2 d h1 h2 hd1 hd2 => ?_, fun c s h => ?_⟩
  · obtain ⟨d, dumps, hd, hdumps, hread⟩ := h.read_node ins
    exact ⟨d, dumps, hd, hdumps, children_dumps_length ins _ dumps hdumps, hread,
      h.read_tree ins d hd d.length (Nat.le_refl _)⟩
  · have e1 := h1.read_tree ins d hd1 d.length (Nat.le_refl _)
    have e2 := h2.read_tree ins d hd2 d.length (Nat.le_refl _)
    rw [e1] at e2
    exact Option.some.inj e2
  · obtain ⟨d, dumps, hd, hdumps, hread⟩ := h.read_node ins
    simp only [get_children, Expr.up, Statement.up, Option.map_some', children_dumps,
      Option.some_bind] at hdumps
    cases hdc : dump ins (.expr c) with
    | none => simp [hdc] at hdumps
    | some dc =>
      cases hds : dump ins (.stmt s) with
      | none => simp [hdc, hds] at hdumps
      | some ds =>
        simp only [hdc, hds, Option.some.injEq] at hdumps
        subst hdumps
        exact ⟨d, dc, ds, hd, rfl, rfl, hread⟩

/-- C11, amended, at `if (1) ;`-like tree: an `IfStmt` on the integer literal 1
and a bare `Statement`. -/
theorem dump_round_trips_when_readable_witness :
    Readable Inserters.sample
      (.stmt (.IfStmt (some (IntegerValue.new 1)) (some .Statement)))
    ∧ ∃ d dc ds : String,
        dump Inserters.sample
            (.stmt (.IfStmt (some (IntegerValue.new 1)) (some .Statement))) = some d
        ∧ dump Inserters.sample (.expr (IntegerValue.new 1)) = some dc
        ∧ dump Inserters.sample (.stmt .Statement) = some ds
        ∧ read_node d = some ("IfStmt", [dc, ds]) :=
  have hr : Readable Inserters.sample
      (.stmt (.IfStmt (some (IntegerValue.new 1)) (some .Statement))) :=
    .intro _ "" rfl rfl (by simp [get_children, Expr.up, Statement.up])
      (fun c hc => by
        simp only [get_children, Expr.up, Statement.up, Option.map_some',
          List.mem_cons, Option.some.injEq, List.mem_singleton, List.not_mem_nil,
          or_false] at hc
        rcases hc with rfl | rfl
        · exact .intro _ " \"[INTEGER]\" 1" rfl rfl (by simp [get_children, IntegerValue.new])
            (fun c hc => by simp [get_children, IntegerValue.new] at hc)
        · exact .intro _ "" rfl rfl (by simp [get_children])
            (fun c hc => by simp [get_children] at hc))
  ⟨hr, (dump_round_trips_when_readable Inserters.sample).2.2 _ _ hr⟩

/-- `set_type` writes the type slot only: the children are those of before. -/
theorem get_children_set_type (e : Expr) (t : Ptr Type_) :
    get_children (.expr (e.set_type t)) = get_children (.expr e) := by
  cases e with
  | BinOp b => cases b; rfl
  | _ => rfl

/-- After `set_type(t)` the slot holds `t`. -/
theorem get_type_set_type (e : Expr) (t : Ptr Type_) :
    (e.set_type t).get_type = t := by
  cases e with
  | BinOp b => cases b; rfl
  | _ => rfl

/-- C12: the type slot of a typed node starts as VOID: a freshly built binary
operator, `Call`, `Variable` or `Expr` reports the primitive type VOID; and
after `set_type(k)` a typed node reports the primitive type of kind `k`, its
children being those of before. -/
theorem type_slot_defaults_to_void :
    (∀ (cls : BinOpClass) (left right : Expr),
      ∃ b, BinOp.new cls (some left) (some right) = some b
        ∧ (Expr.BinOp b).get_type = some (.PrimType .VOID))
    ∧ (∀ (f : Expr) (arguments : Exprs),
      ∃ call, Call.new (some f) (some arguments) = some call
        ∧ call.get_type = some (.PrimType .VOID))
    ∧ (∀ ref : sbtb.NameRef, (Variable.new ref).get_type = some (.PrimType .VOID))
    ∧ Expr.new.get_type = some (.PrimType .VOID)
    ∧ (∀ (e : Expr) (k : PrimKind),
        (e.set_type_kind k).get_type = some (.PrimType k)
        ∧ get_children (.expr (e.set_type_kind k)) = get_children (.expr e)) :=
  ⟨fun _ _ _ => ⟨_, rfl, rfl⟩, fun _ _ => ⟨_, rfl, rfl⟩, fun _ => rfl, rfl,
    fun e k => ⟨get_type_set_type e _, get_children_set_type e _⟩⟩

end ast

namespace decl

open types

/-- C13: resolving an array size succeeds exactly on an integer literal
expression, and the array builder then carries the value of the literal as
its element count; on every other expression, a variable reference among
them, it stops with a non-constant array bound and yields no builder. -/
theorem array_size_resolves_integer_literals_only :
    (∀ e : ast.Expr, (∃ b, vector_type_builder (some e) = .ok b)
        ↔ ∃ type value, e = .IntegerValue type value)
    ∧ (∀ (type : Ptr Type_) (value : Nat),
        vector_type_builder (some (.IntegerValue type value)) = .ok (.array value))
    ∧ (∀ value : Nat,
        vector_type_builder (some (ast.IntegerValue.new value)) = .ok (.array value))
    ∧ (∀ e : ast.Expr, (¬ ∃ type value, e = .IntegerValue type value) →
        vector_type_builder (some e) = .error .non_constant_array_bound)
    ∧ (∀ ref : sbtb.NameRef,
        vector_type_builder (some (ast.Variable.new ref))
          = .error .non_constant_array_bound) := by
  have hlit : ∀ (type : Ptr Type_) (value : Int),
      vector_type_builder (some (.IntegerValue type value))
        = .ok (.array value.toNat) := fun _ _ => rfl
  have hother : ∀ e : ast.Expr, (¬ ∃ type value, e = .IntegerValue type value) →
      vector_type_builder (some e) = .error .non_constant_array_bound := by
    intro e h
    cases e with
    | IntegerValue type value => exact absurd ⟨type, value, rfl⟩ h
    | _ => rfl
  refine ⟨fun e => ⟨fun ⟨b, hb⟩ => ?_, fun ⟨type, value, he⟩ => ?_⟩, ?_, ?_, hother,
    fun _ => rfl⟩
  · by_contra hne
    rw [hother e hne] at hb
    cases hb
  · subst he
    exact ⟨_, hlit type value⟩
  · intro type value
    simpa using hlit type value
  · intro value
    simpa [ast.IntegerValue.new] using hlit (some (.PrimType .INTEGER)) value

/-- C13 at the negation of the literal 3, which is not a literal. -/
theorem array_size_resolves_integer_literals_only_witness :
    (¬ ∃ type value, ast.Expr.UnOp .InvertSignal (some (.PrimType .INTEGER))
        (some (ast.IntegerValue.new 3)) = .IntegerValue type value)
    ∧ vector_type_builder (some (ast.Expr.UnOp .InvertSignal (some (.PrimType .INTEGER))
        (some (ast.IntegerValue.new 3)))) = .error .non_constant_array_bound :=
  ⟨fun h => (by obtain ⟨_, _, h⟩ := h; cases h),
    array_size_resolves_integer_literals_only.2.2.2.1 _
      (fun h => (by obtain ⟨_, _, h⟩ := h; cases h))⟩

/-- The declarators of a declaration go into the scope one after the other. -/
theorem foldlM_declare_one (base : Type_) (storage : Option StorageClassSpec.Kind)
    (decls : InitDeclarators) :
    ∀ scope scope1, decls.foldlM (declare_one base storage) scope = .ok scope1 →
      ∃ (ds : List Declarator) (bs : List sbtb.Binding), decls = ds.map some
        ∧ List.Forall₂ (Declared base storage) ds bs
        ∧ scope1 = scope ++ bs := by
  induction decls with
  | nil =>
    intro scope scope1 h
    cases h
    exact ⟨[], [], rfl, .nil, by simp⟩
  | cons d decls ih =>
    intro scope scope1 h
    rw [List.foldlM_cons] at h
    cases d with
    | none => cases h
    | some d =>
      cases ht : declared_type base d.toAbstractDeclarator with
      | error f =>
        simp only [declare_one, ht] at h
        cases h
      | ok type =>
        by_cases hdup : scope.any (fun b => b.name == d.name) = true
        · simp [declare_one, ht, sbtb.insert, hdup] at h
          cases h
        · have hstep : declare_one base storage scope (some d)
              = .ok (scope ++ [⟨d.name, type, storage⟩]) := by
            simp [declare_one, ht, sbtb.insert, hdup]
          rw [hstep] at h
          obtain ⟨ds, bs, hds, hfa, hsc⟩ := ih _ _ h
          exact ⟨d :: ds, ⟨d.name, type, storage⟩ :: bs, by simp [hds],
            .cons ⟨rfl, ht, rfl⟩ hfa, by simp [hsc]⟩

/-- Declarators with fresh, pairwise distinct names whose types are assembled
without mismatch all go into the scope. -/
theorem foldlM_declare_one_ok (base : Type_) (storage : Option StorageClassSpec.Kind)
    (ds : List Declarator) :
    ∀ scope : sbtb.Scope,
      (scope.map (fun b => b.name) ++ ds.map (fun d => d.name)).Nodup →
      (∀ d ∈ ds, ∃ t, declared_type base d.toAbstractDeclarator = .ok t) →
      ∃ bs, List.Forall₂ (Declared base storage) ds bs
        ∧ (ds.map some).foldlM (declare_one base storage) scope
            = .ok (scope ++ bs) := by
  induction ds with
  | nil => intro scope _ _; exact ⟨[], .nil, by simp [pure, Except.pure]⟩
  | cons d ds ih =>
    intro scope hnd htypes
    obtain ⟨type, ht⟩ := htypes d (List.mem_cons_self _ _)
    have hfresh : scope.any (fun b => b.name == d.name) = false := by
      rw [List.nodup_append] at hnd
      have hdis := hnd.2.2
      rw [Bool.eq_false_iff]
      intro hany
      rw [List.any_eq_true] at hany
      obtain ⟨b, hb, hbn⟩ := hany
      have hbn : b.name = d.name := by simpa using hbn
      exact hdis (List.mem_map.mpr ⟨b, hb, rfl⟩) (hbn ▸ by simp)
    have hstep : declare_one base storage scope (some d)
        = .ok (scope ++ [⟨d.name, type, storage⟩]) := by
      simp [declare_one, ht, sbtb.insert, hfresh]
    have hnd1 : ((scope ++ [(⟨d.name, type, storage⟩ : sbtb.Binding)]).map
        (fun b => b.name) ++ ds.map (fun d => d.name)).Nodup := by
      simpa [List.append_assoc] using hnd
    obtain ⟨bs, hfa, hrun⟩ := ih (scope ++ [⟨d.name, type, storage⟩]) hnd1
      (fun d1 hd1 => htypes d1 (List.mem_cons_of_mem _ hd1))
    refine ⟨⟨d.name, type, storage⟩ :: bs, .cons ⟨rfl, ht, rfl⟩ hfa, ?_⟩
    rw [List.map_cons, List.foldlM_cons, hstep]
    simpa [bind, Except.bind] using hrun

/-- C14: `declare` inserts one binding per declarator, in order and after the
bindings the scope already had, which stay as they were; each binding has the
type that the pointer counter and the builders of its own declarator make of
the shared base type; for `int a, *b;` the bindings are `a: INTEGER` and
`b: POINTER(INTEGER)`. It inserts them all whenever there is a type specifier,
no type is mismatched and the names are distinct and not yet bound; a type
mismatch (`void a[3]`) and a name bound twice stop it. -/
theorem declare_inserts_one_binding_per_declarator :
    declare [some (.TypeDeclSpec (.TypeSpec .INTEGER))]
        [some (Declarator.new "a"), some { Declarator.new "b" with pointer := 1 }] []
      = .ok [⟨"a", .PrimType .INTEGER, none⟩,
          ⟨"b", .POINTER (.PrimType .INTEGER), none⟩]
    ∧ (∀ (specs : DeclarationSpecs) (decls : InitDeclarators)
        (scope scope1 : sbtb.Scope), declare specs decls scope = .ok scope1 →
        ∃ (base : Type_) (ds : List Declarator) (bs : List sbtb.Binding),
          base_type specs = some base ∧ decls = ds.map some
          ∧ List.Forall₂ (fun d b => b.name = d.name
              ∧ declared_type base d.toAbstractDeclarator = .ok b.type
              ∧ b.storage = storage_class specs) ds bs
          ∧ scope1 = scope ++ bs)
    ∧ (∀ (specs : DeclarationSpecs) (base : Type_) (ds : List Declarator)
        (scope : sbtb.Scope), base_type specs = some base →
        (scope.map (fun b => b.name) ++ ds.map (fun d => d.name)).Nodup →
        (∀ d ∈ ds, ∃ t, declared_type base d.toAbstractDeclarator = .ok t) →
        ∃ bs : List sbtb.Binding,
          List.Forall₂ (fun d b => b.name = d.name
              ∧ declared_type base d.toAbstractDeclarator = .ok b.type
              ∧ b.storage = storage_class specs) ds bs
          ∧ declare specs (ds.map some) scope = .ok (scope ++ bs))
    ∧ declare [some (.TypeDeclSpec (.TypeSpec .VOID))]
        [some ((Declarator.new "a").add (.array 3))] []
      = .error .type_mismatch
    ∧ declare [some (.TypeDeclSpec (.TypeSpec .INTEGER))]
        [some (Declarator.new "a"), some { Declarator.new "a" with pointer := 1 }] []
      = .error (.duplicate_name "a") := by
  refine ⟨rfl, ?_, ?_, rfl, rfl⟩
  · intro specs decls scope scope1 h
    unfold declare at h
    cases hb : base_type specs with
    | none => rw [hb] at h; cases h
    | some base =>
      rw [hb] at h
      obtain ⟨ds, bs, hds, hfa, hsc⟩ := foldlM_declare_one base _ decls scope scope1 h
      exact ⟨base, ds, bs, rfl, hds, hfa, hsc⟩
  · intro specs base ds scope hb hnd htypes
    unfold declare
    rw [hb]
    exact foldlM_declare_one_ok base _ ds scope hnd htypes

/-- C14 at `static char *v[4];` declared in a scope that binds `a`. -/
theorem declare_inserts_one_binding_per_declarator_witness :
    base_type [some (.StorageClassSpec .STATIC), some (.TypeDeclSpec (.TypeSpec .CHAR))]
      = some (.PrimType .CHAR)
    ∧ declare [some (.StorageClassSpec .STATIC), some (.TypeDeclSpec (.TypeSpec .CHAR))]
        [some { (Declarator.new "v").add (.array 4) with pointer := 1 }]
        [⟨"a", .PrimType .INTEGER, none⟩]
      = .ok [⟨"a", .PrimType .INTEGER, none⟩,
          ⟨"v", .ARRAY 4 (.POINTER (.PrimType .CHAR)), some .STATIC⟩]
    ∧ ∃ bs : List sbtb.Binding,
        declare [some (.StorageClassSpec .STATIC), some (.TypeDeclSpec (.TypeSpec .CHAR))]
          ([{ (Declarator.new "v").add (.array 4) with pointer := 1 }].map some)
          [⟨"a", .PrimType .INTEGER, none⟩]
        = .ok ([⟨"a", .PrimType .INTEGER, none⟩] ++ bs) := by
  obtain ⟨bs, _, hrun⟩ := declare_inserts_one_binding_per_declarator.2.2.1
    [some (.StorageClassSpec .STATIC), some (.TypeDeclSpec (.TypeSpec .CHAR))]
    (.PrimType .CHAR) [{ (Declarator.new "v").add (.array 4) with pointer := 1 }]
    [⟨"a", .PrimType .INTEGER, none⟩] rfl (by decide)
    (fun d hd => by
      rw [List.mem_singleton] at hd
      subst hd
      exact ⟨_, rfl⟩)
  exact ⟨rfl, rfl, bs, hrun⟩

end decl

namespace ast

open types

/-- A pointer list grown by one non-null pointer at a sound node. -/
theorem mem_append_singleton_sound {P : Node → Prop} (l : List (Ptr Node)) (c : Node)
    (hl : ∀ p ∈ l, ∃ c, p = some c ∧ P c) (hc : P c) :
    ∀ p ∈ l ++ [some c], ∃ c, p = some c ∧ P c := by
  intro p hp
  rcases List.mem_append.mp hp with h | h
  · exact hl p h
  · rw [List.mem_singleton] at h
    exact ⟨c, h, hc⟩

/-- What the constructors and the `add` operations build is free of null
pointers. -/
theorem noNull_of_built {n : Node} (h : Built n) : NoNull n := by
  induction h with
  | Node => exact .of_children _ (by simp [type_slot]) (by simp [get_children])
  | TypedNode =>
    exact .of_children _ (by simp [type_slot, TypedNode.type_init])
      (by simp [get_children])
  | Expr =>
    exact .of_children _ (by simp [type_slot, Expr.new, Expr.get_type,
      TypedNode.type_init]) (by simp [get_children, Expr.new])
  | Value =>
    exact .of_children _ (by simp [type_slot, Expr.get_type, TypedNode.type_init])
      (by simp [get_children])
  | IntegerValue value =>
    exact .of_children _ (by simp [type_slot, IntegerValue.new, Expr.get_type])
      (by simp [get_children, IntegerValue.new])
  | FloatingValue value =>
    exact .of_children _ (by simp [type_slot, FloatingValue.new, Expr.get_type])
      (by simp [get_children, FloatingValue.new])
  | CharValue value =>
    exact .of_children _ (by simp [type_slot, CharValue.new, Expr.get_type])
      (by simp [get_children, CharValue.new])
  | StringValue value =>
    exact .of_children _ (by simp [type_slot, StringValue.new, Expr.get_type])
      (by simp [get_children, StringValue.new])
  | Variable ref =>
    exact .of_children _ (by simp [type_slot, Variable.new, Expr.get_type,
      TypedNode.type_init]) (by simp [get_children, Variable.new])
  | UnOp cls child u _ hnew ih =>
    cases child with
    | none => simp [UnOp.new] at hnew
    | some c =>
      simp only [UnOp.new, Option.some.injEq] at hnew
      subst hnew
      have hc := ih c rfl
      refine .of_children _ ?_ ?_
      · simpa [type_slot, Expr.get_type] using hc.all.1
      · simpa [get_children, Expr.up] using hc
  | BinOp cls left right b _ _ hnew ihl ihr =>
    cases left <;> cases right <;> simp [BinOp.new] at hnew
    subst hnew
    refine .of_children _ (by simp [type_slot, Expr.get_type, BinOp.get_type,
      TypedNode.type_init]) ?_
    simp only [get_children, Expr.up, List.map_cons, List.map_nil, Option.map_some',
      List.mem_cons, List.mem_singleton, List.not_mem_nil, or_false]
    rintro p (rfl | rfl)
    · exact ⟨_, rfl, ihl _ rfl⟩
    · exact ⟨_, rfl, ihr _ rfl⟩
  | BinOp_add b child b1 _ _ hadd ihb ihc =>
    obtain ⟨cls, type, children⟩ := b
    cases child with
    | none => simp [BinOp.add, MultiChildrenBase.add] at hadd
    | some c =>
      simp only [BinOp.add, MultiChildrenBase.add, Option.map_some',
        Option.some.injEq] at hadd
      subst hadd
      refine .of_children _ ihb.all.1 ?_
      have := mem_append_singleton_sound _ (.expr c) ihb.all.2 (ihc c rfl)
      simpa [get_children, Expr.up] using this
  | Exprs => exact .of_children _ (by simp [type_slot]) (by simp [get_children, Exprs.new])
  | Exprs_add es child es1 _ _ hadd ihb ihc =>
    obtain ⟨children⟩ := es
    cases child with
    | none => simp [Exprs.add, MultiChildrenBase.add] at hadd
    | some c =>
      simp only [Exprs.add, MultiChildrenBase.add, Option.map_some',
        Option.some.injEq] at hadd
      subst hadd
      refine .of_children _ (by simp [type_slot]) ?_
      have := mem_append_singleton_sound _ (.expr c) ihb.all.2 (ihc c rfl)
      simpa [get_children, Expr.up] using this
  | Call left right call _ _ hnew ihl ihr =>
    cases left <;> cases right <;> simp [Call.new] at hnew
    subst hnew
    refine .of_children _ (by simp [type_slot, Expr.get_type, TypedNode.type_init]) ?_
    simp only [get_children, Expr.up, Exprs.up, Option.map_some',
      List.mem_cons, List.mem_singleton, List.not_mem_nil, or_false]
    rintro p (rfl | rfl)
    · exact ⟨_, rfl, ihl _ rfl⟩
    · exact ⟨_, rfl, ihr _ rfl⟩
  | Statement => exact .of_children _ (by simp [type_slot]) (by simp [get_children])
  | IfStmt expr stmt st _ _ hnew ihl ihr =>
    cases expr <;> cases stmt <;> simp [IfStmt.new] at hnew
    subst hnew
    refine .of_children _ (by simp [type_slot]) ?_
    simp only [get_children, Expr.up, Statement.up, Option.map_some',
      List.mem_cons, List.mem_singleton, List.not_mem_nil, or_false]
    rintro p (rfl | rfl)
    · exact ⟨_, rfl, ihl _ rfl⟩
    · exact ⟨_, rfl, ihr _ rfl⟩
  | WhileStmt expr stmt st _ _ hnew ihl ihr =>
    cases expr <;> cases stmt <;> simp [WhileStmt.new] at hnew
    subst hnew
    refine .of_children _ (by simp [type_slot]) ?_
    simp only [get_children, Expr.up, Statement.up, Option.map_some',
      List.mem_cons, List.mem_singleton, List.not_mem_nil, or_false]
    rintro p (rfl | rfl)
    · exact ⟨_, rfl, ihl _ rfl⟩
    · exact ⟨_, rfl, ihr _ rfl⟩
  | DoWhileStmt expr stmt st _ _ hnew ihl ihr =>
    cases expr <;> cases stmt <;> simp [DoWhileStmt.new] at hnew
    subst hnew
    refine .of_children _ (by simp [type_slot]) ?_
    simp only [get_children, Expr.up, Statement.up, Option.map_some',
      List.mem_cons, List.mem_singleton, List.not_mem_nil, or_false]
    rintro p (rfl | rfl)
    · exact ⟨_, rfl, ihl _ rfl⟩
    · exact ⟨_, rfl, ihr _ rfl⟩
  | Block => exact .of_children _ (by simp [type_slot]) (by simp [get_children, Block.new])
  | Block_add b stmt b1 _ _ hadd ihb ihc =>
    obtain ⟨scope_id, children⟩ := b
    cases stmt with
    | none =>
      simp only [Block.add, Option.some.injEq] at hadd
      subst hadd
      exact ihb
    | some c =>
      simp only [Block.add, Option.some.injEq] at hadd
      subst hadd
      refine .of_children _ (by simp [type_slot]) ?_
      have := mem_append_singleton_sound _ (.stmt c) ihb.all.2 (ihc c rfl)
      simpa [get_children, Statement.up] using this
  | ExpressionStmt child st _ hnew ih =>
    cases child with
    | none => simp [ExpressionStmt.new] at hnew
    | some c =>
      simp only [ExpressionStmt.new, Option.some.injEq] at hnew
      subst hnew
      refine .of_children _ (by simp [type_slot]) ?_
      simpa [get_children, Expr.up] using ih c rfl
  | Declaration => exact .of_children _ (by simp [type_slot]) (by simp [get_children])
  | FunctionDefinition body d _ hnew ih =>
    cases body with
    | none => simp [FunctionDefinition.new] at hnew
    | some c =>
      simp only [FunctionDefinition.new, Option.some.injEq] at hnew
      subst hnew
      refine .of_children _ (by simp [type_slot]) ?_
      simpa [get_children, Block.up, Block.toStatement, Statement.up] using ih c rfl
  | Program =>
    exact .of_children _ (by simp [type_slot]) (by simp [get_children, Program.new])
  | Program_add p d p1 _ _ hadd ihb ihc =>
    obtain ⟨children⟩ := p
    cases d with
    | none => simp [Program.add] at hadd
    | some c =>
      simp only [Program.add, Option.some.injEq] at hadd
      subst hadd
      refine .of_children _ (by simp [type_slot]) ?_
      have := mem_append_singleton_sound _ (.decl c) ihb.all.2 (ihc c rfl)
      simpa [get_children, Declaration.up] using this

/-- C15: in every tree that the public constructors and the `add` operations
build, no assertion failing, every pointer `get_children` returns at every node
is non-null, and `write_repr` has a result on it, on any stream. -/
theorem built_tree_has_no_null_child (ins : Inserters) (n : Node) (h : Built n) :
    NoNullChild n
    ∧ (∀ p ∈ get_children n, p ≠ none)
    ∧ (∃ d, dump ins n = some d)
    ∧ (∀ stream, ∃ out, write_repr ins n stream = some out) := by
  have hn := noNull_of_built h
  obtain ⟨d, hd⟩ := hn.dump_isSome ins
  refine ⟨hn.noNullChild, fun p hp hnone => ?_, ⟨d, hd⟩, fun stream => ?_⟩
  · obtain ⟨c, hc, _⟩ := hn.all.2 p hp
    rw [hnone] at hc
    cases hc
  · rw [write_repr_append, hd]
    exact ⟨_, rfl⟩

/-- C15 at `!1`, the `Not` node built on the integer literal 1. -/
theorem built_tree_has_no_null_child_witness :
    Built (.expr (.UnOp .Not (some (.PrimType .INTEGER)) (some (IntegerValue.new 1))))
    ∧ NoNullChild (.expr (.UnOp .Not (some (.PrimType .INTEGER))
        (some (IntegerValue.new 1))))
    ∧ ∃ d, dump Inserters.sample (.expr (.UnOp .Not (some (.PrimType .INTEGER))
        (some (IntegerValue.new 1)))) = some d :=
  have hb : Built (.expr (.UnOp .Not (some (.PrimType .INTEGER))
      (some (IntegerValue.new 1)))) :=
    .UnOp .Not (some (IntegerValue.new 1)) _
      (fun c hc => by cases hc; exact .IntegerValue 1) rfl
  ⟨hb, (built_tree_has_no_null_child Inserters.sample _ hb).1,
    (built_tree_has_no_null_child Inserters.sample _ hb).2.2.1⟩

/-- C16 as stated fails: `set_type` with a null pointer on a fresh `Expr`
leaves its type slot null, and `write_data_repr` then has no result. -/
theorem type_slot_nonnull_counterexample :
    (Expr.new.set_type none).get_type = none
    ∧ write_data_repr Inserters.sample (.expr (Expr.new.set_type none)) "" = none
    ∧ ¬ (∀ (e : Expr) (t : Ptr Type_), (e.set_type t).get_type ≠ none) :=
  ⟨rfl, rfl, fun h => h Expr.new none rfl⟩

/-- The typed nodes whose constructor leaves or sets a type of its own: the
value leaves, `Variable`, `Expr`, the binary operators and `Call`. -/
theorem fresh_type_slot_nonnull :
    (∀ v, (IntegerValue.new v).get_type ≠ none)
    ∧ (∀ v, (FloatingValue.new v).get_type ≠ none)
    ∧ (∀ v, (CharValue.new v).get_type ≠ none)
    ∧ (∀ v, (StringValue.new v).get_type ≠ none)
    ∧ (∀ ref, (Variable.new ref).get_type ≠ none)
    ∧ Expr.new.get_type ≠ none
    ∧ (∀ cls left right b, BinOp.new cls left right = some b →
        (Expr.BinOp b).get_type ≠ none)
    ∧ (∀ left right call, Call.new left right = some call →
        call.get_type ≠ none) := by
  refine ⟨fun _ => by simp [IntegerValue.new, Expr.get_type],
    fun _ => by simp [FloatingValue.new, Expr.get_type],
    fun _ => by simp [CharValue.new, Expr.get_type],
    fun _ => by simp [StringValue.new, Expr.get_type],
    fun _ => by simp [Variable.new, Expr.get_type, TypedNode.type_init],
    by simp [Expr.new, Expr.get_type, TypedNode.type_init], ?_, ?_⟩
  · intro cls left right b h
    cases left <;> cases right <;> simp [BinOp.new] at h
    subst h
    simp [Expr.get_type, BinOp.get_type, TypedNode.type_init]
  · intro left right call h
    cases left <;> cases right <;> simp [Call.new] at h
    subst h
    simp [Expr.get_type, TypedNode.type_init]

/-- C16, amended: the type slot is non-null right after the construction of a
value leaf, a `Variable`, an `Expr`, a binary operator or a `Call`; a unary
operator has the slot of its operand, null exactly when the operand's is;
`set_type(PrimKind)` always leaves it non-null; `set_type(Type*)` stores its
argument as it is, so the slot is null afterwards exactly when the argument is;
and `TypedNode::write_data_repr` has a result exactly when the slot is not
null. -/
theorem type_slot_nonnull_unless_set_null :
    ((∀ v, (IntegerValue.new v).get_type ≠ none)
      ∧ (∀ v, (FloatingValue.new v).get_type ≠ none)
      ∧ (∀ v, (CharValue.new v).get_type ≠ none)
      ∧ (∀ v, (StringValue.new v).get_type ≠ none)
      ∧ (∀ ref, (Variable.new ref).get_type ≠ none)
      ∧ Expr.new.get_type ≠ none
      ∧ (∀ cls left right b, BinOp.new cls left right = some b →
          (Expr.BinOp b).get_type ≠ none)
      ∧ (∀ left right call, Call.new left right = some call →
          call.get_type ≠ none))
    ∧ (∀ cls (e u : Expr), UnOp.new cls (some e) = some u →
        (u.get_type = none ↔ e.get_type = none))
    ∧ (∀ (e : Expr) (k : PrimKind), (e.set_type_kind k).get_type ≠ none)
    ∧ (∀ (e : Expr) (t : Ptr Type_),
        ((e.set_type t).get_type = none ↔ t = none))
    ∧ (∀ (ins : Inserters) (type : Ptr Type_) (stream : String),
        (TypedNode.write_data_repr ins type stream = none ↔ type = none)) := by
  refine ⟨fresh_type_slot_nonnull, ?_, ?_, ?_, ?_⟩
  · intro cls e u h
    simp only [UnOp.new, Option.some.injEq] at h
    subst h
    rfl
  · intro e k
    simp [Expr.set_type_kind, get_type_set_type]
  · intro e t
    rw [get_type_set_type]
  · intro ins type stream
    cases type <;> simp [TypedNode.write_data_repr]

/-- C16, amended, at `Not` built on the integer literal 0. -/
theorem type_slot_nonnull_unless_set_null_witness :
    UnOp.new .Not (some (IntegerValue.new 0))
        = some (.UnOp .Not (some (.PrimType .INTEGER)) (some (IntegerValue.new 0)))
    ∧ ((Expr.UnOp .Not (some (.PrimType .INTEGER)) (some (IntegerValue.new 0))).get_type
          = none ↔ (IntegerValue.new 0).get_type = none) :=
  ⟨rfl, type_slot_nonnull_unless_set_null.2.1 .Not (IntegerValue.new 0) _ rfl⟩

/-- C17: the scope tag is the only data of a `Block`: a block without a tag
writes no data and dumps as `(Block`, a blank and the dump of each child, and
`)`; after `set_scope(s)` the data is a blank and `s` as the inserter writes
it, and the dump is `(Block `, `s`, the same children part and `)`;
`set_scope` leaves `get_children` as it was, and `add` leaves the tag as it
was. -/
theorem block_scope_tag_is_its_only_data (ins : Inserters) (b : Block) (s : ScopeId) :
    (b.scope_id = none →
      write_data_repr ins (.stmt (.Block b)) "" = some ""
      ∧ dump ins (.stmt (.Block b)) =
          (children_dumps ins (get_children (.stmt (.Block b)))).map (fun dumps =>
            "(Block" ++ String.join (dumps.map (" " ++ ·)) ++ ")"))
    ∧ (b.set_scope s).scope_id = some s
    ∧ write_data_repr ins (.stmt (.Block (b.set_scope s))) "" = some (" " ++ ins.scope s)
    ∧ dump ins (.stmt (.Block (b.set_scope s))) =
        (children_dumps ins (get_children (.stmt (.Block b)))).map (fun dumps =>
          "(Block " ++ ins.scope s ++ String.join (dumps.map (" " ++ ·)) ++ ")")
    ∧ get_children (.stmt (.Block (b.set_scope s))) = get_children (.stmt (.Block b))
    ∧ (∀ (stmt : Ptr Statement) (b1 : Block), b.add stmt = some b1 →
        b1.scope_id = b.scope_id) := by
  obtain ⟨scope_id, children⟩ := b
  refine ⟨fun h => ?_, rfl, rfl, ?_, rfl, ?_⟩
  · simp only [Block.scope_id] at h
    subst h
    refine ⟨rfl, ?_⟩
    rw [dump_eq]
    simp only [write_data_repr, Block.write_data_repr, get_label]
    cases children_dumps ins (get_children (.stmt (.Block (.mk none children)))) <;>
      simp
  · rw [dump_eq]
    simp only [Block.set_scope, write_data_repr, Block.write_data_repr, get_label,
      get_children]
    cases children_dumps ins (children.map Statement.up) with
    | none => simp
    | some dumps =>
      simp only [Option.map_some', Option.some.injEq, String.append_assoc]
      have h : ∀ X : String,
          "(" ++ ("Block" ++ ("" ++ (" " ++ X))) = "(Block " ++ X := by
        intro X
        simp only [String.empty_append, ← String.append_assoc]
        rfl
      exact h _
  · intro stmt b1 h
    cases stmt <;> simp only [Block.add, Option.some.injEq] at h <;> subst h <;> rfl

/-- C17 at a fresh `Block`, which has no tag. -/
theorem block_scope_tag_is_its_only_data_witness :
    Block.new.scope_id = none
    ∧ dump Inserters.sample (.stmt (.Block Block.new)) =
        (children_dumps Inserters.sample
            (get_children (.stmt (.Block Block.new)))).map (fun dumps =>
          "(Block" ++ String.join (dumps.map (" " ++ ·)) ++ ")") :=
  ⟨rfl, ((block_scope_tag_is_its_only_data Inserters.sample Block.new 0).1 rfl).2⟩

end ast

namespace decl

open types

/-- C18: a `Declarator` starts with its name, pointer depth 0, no builder and
no initializer; `add` appends the builder at the end of the sequence and
leaves name, pointer depth and initializer as they were; `set_init` sets the
initializer and leaves name, pointer depth and builders as they were;
`DeclarationSpecs.add` and `InitDeclarators.add` append too, so that adding
`x1 .. xn` in that order gives the sequence `[x1, .., xn]`. -/
theorem declarator_accumulates_in_order :
    (∀ name : String,
      (Declarator.new name).name = name
      ∧ (Declarator.new name).pointer = 0
      ∧ (Declarator.new name).builders = []
      ∧ (Declarator.new name).init_expr = none)
    ∧ (∀ (d : Declarator) (b : Builder),
      (d.add b).builders = d.builders ++ [b]
      ∧ (d.add b).name = d.name
      ∧ (d.add b).pointer = d.pointer
      ∧ (d.add b).init_expr = d.init_expr)
    ∧ (∀ (name : String) (bs : List Builder),
      (bs.foldl Declarator.add (Declarator.new name)).builders = bs)
    ∧ (∀ (d : Declarator) (e : Ptr ast.Expr),
      (d.set_init e).init_expr = some e
      ∧ (d.set_init e).name = d.name
      ∧ (d.set_init e).pointer = d.pointer
      ∧ (d.set_init e).builders = d.builders)
    ∧ (∀ (specs : DeclarationSpecs) (spec : Ptr DeclarationSpec),
      DeclarationSpecs.add specs spec = specs ++ [spec])
    ∧ (∀ specs : List (Ptr DeclarationSpec),
      specs.foldl DeclarationSpecs.add [] = specs)
    ∧ (∀ (decls : InitDeclarators) (init : Ptr Declarator),
      InitDeclarators.add decls init = decls ++ [init])
    ∧ (∀ decls : List (Ptr Declarator),
      decls.foldl InitDeclarators.add [] = decls) := by
  have hfold : ∀ {α : Type} (xs acc : List α),
      xs.foldl (fun l x => l ++ [x]) acc = acc ++ xs := by
    intro α xs
    induction xs with
    | nil => intro acc; simp
    | cons x xs ih => intro acc; simp [ih]
  refine ⟨fun _ => ⟨rfl, rfl, rfl, rfl⟩, fun _ _ => ⟨rfl, rfl, rfl, rfl⟩, ?_,
    fun _ _ => ⟨rfl, rfl, rfl, rfl⟩, fun _ _ => rfl, ?_, fun _ _ => rfl, ?_⟩
  · intro name bs
    have : ∀ (bs : List Builder) (d : Declarator),
        (bs.foldl Declarator.add d).builders = d.builders ++ bs := by
      intro bs
      induction bs with
      | nil => intro d; simp
      | cons b bs ih =>
        intro d
        simp only [List.foldl_cons, ih]
        simp [Declarator.add, AbstractDeclarator.add]
    simpa [Declarator.new] using this bs (Declarator.new name)
  · intro specs
    simpa using hfold specs []
  · intro decls
    simpa using hfold decls []

end decl

namespace ast

open types

/-- C19: a freshly built `StringValue` reports the primitive type VOID, the
very type a typed node has before any type is set (that of a fresh `Expr`),
whatever its payload, and it has no children. -/
theorem string_value_type_is_void (v : Nat) :
    (StringValue.new v).get_type = some (.PrimType .VOID)
    ∧ (StringValue.new v).get_type = TypedNode.type_init
    ∧ (StringValue.new v).get_type = Expr.new.get_type
    ∧ (∀ ref : sbtb.NameRef, (StringValue.new v).get_type = (Variable.new ref).get_type)
    ∧ get_children (.expr (StringValue.new v)) = []
    ∧ (StringValue.new v).get_value = some (.string v) :=
  ⟨rfl, rfl, rfl, fun _ => rfl, rfl, rfl⟩

end ast
